import Mathlib

/-!
# Verification of the Ingredion ESG metrics extraction pipeline

Shallow embedding of the pipeline implemented in `app/main.py`,
`app/extractor/gemini_extractor.py` and `app/extractor/compare_metrics.py`.

JSON values are modelled by the `Json` type below; `Json.loads` models the
fragment of Python's `json.loads` exercised by the pipeline (integers stand
in for JSON numbers; floats, `NaN`/`Infinity` and astral-plane surrogate
pairing are outside the modelled fragment, none of which the pipeline's
claims touch).  `Json.dumps` models `json.dumps` with its default
separators and `ensure_ascii` escaping.
-/

/-- JSON values as produced by `json.loads` (numbers restricted to integers). -/
inductive Json where
  | null
  | bool (b : Bool)
  | num (i : Int)
  | str (s : String)
  | arr (xs : List Json)
  | obj (kvs : List (String × Json))

/-- A Python dict as built from a parsed JSON object: an association list
with unique keys, insertion order preserved. -/
abbrev Record := List (String × Json)

/-- Python exceptions surfaced by the modelled code. -/
inductive PyErr where
  | jsonDecodeError
  | attributeError
  | keyError
  | valueError
deriving DecidableEq, Repr

/-- `d[k] = v` on a Python dict: replace in place if the key exists
(insertion position preserved), otherwise append. -/
def insertKV (d : Record) (k : String) (v : Json) : Record :=
  match d with
  | [] => [(k, v)]
  | (k', v') :: rest => if k' = k then (k, v) :: rest else (k', v') :: insertKV rest k v

/-- `d.get(k)`: value of the first (unique) occurrence of `k`. -/
def getVal (d : Record) (k : String) : Option Json :=
  match d with
  | [] => none
  | (k', v) :: rest => if k' = k then some v else getVal rest k

/-- `d.get(k, default)`. -/
def getD (d : Record) (k : String) (dflt : Json) : Json :=
  (getVal d k).getD dflt

/-- The whitespace accepted between JSON tokens by Python's `json` module. -/
def isJsonWs (c : Char) : Bool :=
  c == ' ' || c == '\t' || c == '\n' || c == '\r'

/-- Skip inter-token whitespace. -/
def skipWs : List Char → List Char
  | [] => []
  | c :: cs => if isJsonWs c then skipWs cs else c :: cs

/-- Hexadecimal digit value, for `\uXXXX` escapes. -/
def hexVal (c : Char) : Option Nat :=
  if '0' ≤ c ∧ c ≤ '9' then some (c.toNat - 48)
  else if 'a' ≤ c ∧ c ≤ 'f' then some (c.toNat - 87)
  else if 'A' ≤ c ∧ c ≤ 'F' then some (c.toNat - 55)
  else none

mutual

/-- Body of a JSON string literal (after the opening quote), strict mode:
unescaped control characters are rejected, escapes are decoded.  The fuel
is an upper bound on the number of characters consumed; callers pass the
input length. -/
def parseStrBody : Nat → List Char → List Char → Option (String × List Char)
  | 0, _, _ => none
  | Nat.succ fuel, acc, cs =>
    match cs with
    | [] => none
    | c :: r =>
      if c = '"' then some (⟨acc.reverse⟩, r)
      else if c = '\\' then parseEsc fuel acc r
      else if c.toNat < 32 then none
      else parseStrBody fuel (c :: acc) r

/-- One escape sequence after a backslash. -/
def parseEsc : Nat → List Char → List Char → Option (String × List Char)
  | 0, _, _ => none
  | Nat.succ fuel, acc, cs =>
    match cs with
    | [] => none
    | e :: r' =>
      if e = '"' then parseStrBody fuel ('"' :: acc) r'
      else if e = '\\' then parseStrBody fuel ('\\' :: acc) r'
      else if e = '/' then parseStrBody fuel ('/' :: acc) r'
      else if e = 'n' then parseStrBody fuel ('\n' :: acc) r'
      else if e = 't' then parseStrBody fuel ('\t' :: acc) r'
      else if e = 'r' then parseStrBody fuel ('\r' :: acc) r'
      else if e = 'b' then parseStrBody fuel (Char.ofNat 8 :: acc) r'
      else if e = 'f' then parseStrBody fuel (Char.ofNat 12 :: acc) r'
      else if e = 'u' then
        match r' with
        | a :: b :: c' :: d :: r'' =>
          match hexVal a, hexVal b, hexVal c', hexVal d with
          | some x, some y, some z, some w =>
              parseStrBody fuel (Char.ofNat (((x * 16 + y) * 16 + z) * 16 + w) :: acc) r''
          | _, _, _, _ => none
        | _ => none
      else none

end

/-- Numeric value of a decimal digit character. -/
def digitVal (c : Char) : Nat := c.toNat - 48

/-- Greedily consume decimal digits, accumulating their value. -/
def readDigits : List Char → Nat → Nat × List Char
  | [], acc => (acc, [])
  | c :: r, acc => if c.isDigit then readDigits r (acc * 10 + digitVal c) else (acc, c :: r)

/-- The integer part of a JSON number: `0 | [1-9][0-9]*` (leading zeros are
not absorbed, matching Python's number regex). -/
def parseNatNum : List Char → Option (Nat × List Char)
  | [] => none
  | c :: r =>
    if c = '0' then some (0, r)
    else if c.isDigit then some (readDigits r (digitVal c))
    else none

/-- Whether a fractional part or exponent follows (floats are outside the
modelled fragment, so the parse is rejected there). -/
def floatFollows : List Char → Bool
  | [] => false
  | c :: _ => c == '.' || c == 'e' || c == 'E'

/-- A JSON number (integer fragment). -/
def parseNum (cs : List Char) : Option (Json × List Char) :=
  match cs with
  | [] => none
  | c :: r =>
    if c = '-' then
      match parseNatNum r with
      | some (n, r') => if floatFollows r' then none else some (Json.num (-(n : Int)), r')
      | none => none
    else
      match parseNatNum (c :: r) with
      | some (n, r') => if floatFollows r' then none else some (Json.num (n : Int), r')
      | none => none

/-- Build a Python dict from parsed object members (duplicate keys: last
assignment wins, first insertion position kept). -/
def mkObj (kvs : List (String × Json)) : Record :=
  kvs.foldl (fun d kv => insertKV d kv.1 kv.2) []

mutual

/-- Recursive-descent model of Python's JSON value scanner.  `fuel` is an
upper bound on the recursion depth; `Json.loads` supplies enough. -/
def parseVal : Nat → List Char → Option (Json × List Char)
  | 0, _ => none
  | Nat.succ fuel, cs =>
    match skipWs cs with
    | [] => none
    | c :: r =>
      if c = '"' then
        match parseStrBody (r.length + 1) [] r with
        | some (s, r') => some (Json.str s, r')
        | none => none
      else if c = '[' then
        match skipWs r with
        | ']' :: r' => some (Json.arr [], r')
        | _ =>
          match parseVal fuel r with
          | some (v, r') =>
            match parseArrRest fuel r' with
            | some (vs, r'') => some (Json.arr (v :: vs), r'')
            | none => none
          | none => none
      else if c = '{' then
        match skipWs r with
        | '}' :: r' => some (Json.obj [], r')
        | _ =>
          match parseMember fuel r with
          | some (kv, r') =>
            match parseObjRest fuel r' with
            | some (kvs, r'') => some (Json.obj (mkObj (kv :: kvs)), r'')
            | none => none
          | none => none
      else if c = 'n' then
        match r with
        | 'u' :: 'l' :: 'l' :: r' => some (Json.null, r')
        | _ => none
      else if c = 't' then
        match r with
        | 'r' :: 'u' :: 'e' :: r' => some (Json.bool true, r')
        | _ => none
      else if c = 'f' then
        match r with
        | 'a' :: 'l' :: 's' :: 'e' :: r' => some (Json.bool false, r')
        | _ => none
      else parseNum (c :: r)

/-- Elements of an array after the first one: `, value`* then `]`. -/
def parseArrRest : Nat → List Char → Option (List Json × List Char)
  | 0, _ => none
  | Nat.succ fuel, cs =>
    match skipWs cs with
    | [] => none
    | c :: r =>
      if c = ']' then some ([], r)
      else if c = ',' then
        match parseVal fuel r with
        | some (v, r') =>
          match parseArrRest fuel r' with
          | some (vs, r'') => some (v :: vs, r'')
          | none => none
        | none => none
      else none

/-- One `"key": value` member of an object. -/
def parseMember : Nat → List Char → Option ((String × Json) × List Char)
  | 0, _ => none
  | Nat.succ fuel, cs =>
    match skipWs cs with
    | [] => none
    | c :: r =>
      if c = '"' then
        match parseStrBody (r.length + 1) [] r with
        | some (k, r') =>
          match skipWs r' with
          | ':' :: r'' =>
            match parseVal fuel r'' with
            | some (v, r3) => some ((k, v), r3)
            | none => none
          | _ => none
        | none => none
      else none

/-- Members of an object after the first one: `, "key": value`* then `}`. -/
def parseObjRest : Nat → List Char → Option (List (String × Json) × List Char)
  | 0, _ => none
  | Nat.succ fuel, cs =>
    match skipWs cs with
    | [] => none
    | c :: r =>
      if c = '}' then some ([], r)
      else if c = ',' then
        match parseMember fuel r with
        | some (kv, r') =>
          match parseObjRest fuel r' with
          | some (kvs, r'') => some (kv :: kvs, r'')
          | none => none
        | none => none
      else none

end

/-- `json.loads`: parse one value, then require only whitespace to the end. -/
def Json.loads (s : String) : Option Json :=
  match parseVal (s.length + 1) s.data with
  | some (v, rest) => if skipWs rest = [] then some v else none
  | none => none

/-- One lowercase hexadecimal digit. -/
def hexDigitChar (n : Nat) : Char :=
  if n < 10 then Char.ofNat (48 + n) else Char.ofNat (87 + n)

/-- `\uXXXX` escape for a code unit. -/
def uEscape (n : Nat) : List Char :=
  ['\\', 'u', hexDigitChar (n / 4096 % 16), hexDigitChar (n / 256 % 16),
   hexDigitChar (n / 16 % 16), hexDigitChar (n % 16)]

/-- `json.dumps` escaping of one character (`ensure_ascii=True`): everything
outside printable ASCII is escaped, with the usual short forms. -/
def escapeChar (c : Char) : List Char :=
  if c = '"' then ['\\', '"']
  else if c = '\\' then ['\\', '\\']
  else if c = '\n' then ['\\', 'n']
  else if c = '\t' then ['\\', 't']
  else if c = '\r' then ['\\', 'r']
  else if c.toNat = 8 then ['\\', 'b']
  else if c.toNat = 12 then ['\\', 'f']
  else if c.toNat < 32 ∨ 126 < c.toNat then
    if c.toNat ≤ 65535 then uEscape c.toNat
    else uEscape (55296 + (c.toNat - 65536) / 1024) ++ uEscape (56320 + (c.toNat - 65536) % 1024)
  else [c]

/-- A serialized JSON string literal. -/
def dumpsStr (s : String) : List Char :=
  '"' :: (s.data.flatMap escapeChar ++ ['"'])

/-- Decimal digit characters. -/
def digitChar : Nat → Char
  | 0 => '0' | 1 => '1' | 2 => '2' | 3 => '3' | 4 => '4'
  | 5 => '5' | 6 => '6' | 7 => '7' | 8 => '8' | 9 => '9'
  | _ => '*'

/-- Decimal digits of `n`, least significant first; the first argument is
recursion fuel (`n` itself is always enough). -/
def natToRevDigits : Nat → Nat → List Nat
  | 0, _ => []
  | _ + 1, 0 => []
  | fuel + 1, n + 1 => (n + 1) % 10 :: natToRevDigits fuel ((n + 1) / 10)

/-- Decimal rendering of a natural number. -/
def natDumps (n : Nat) : List Char :=
  if n = 0 then ['0'] else ((natToRevDigits n n).map digitChar).reverse

/-- Decimal rendering of an integer. -/
def intDumps (i : Int) : List Char :=
  if i < 0 then '-' :: natDumps i.natAbs else natDumps i.toNat

mutual

/-- `json.dumps` with the default separators `", "` and `": "`. -/
def dumpsChars : Json → List Char
  | .null => 'n' :: 'u' :: 'l' :: 'l' :: []
  | .bool true => 't' :: 'r' :: 'u' :: 'e' :: []
  | .bool false => 'f' :: 'a' :: 'l' :: 's' :: 'e' :: []
  | .num i => intDumps i
  | .str s => dumpsStr s
  | .arr [] => ['[', ']']
  | .arr (x :: xs) => '[' :: (dumpsChars x ++ dumpsListTail xs)
  | .obj [] => ['{', '}']
  | .obj ((k, v) :: kvs) =>
      '{' :: (dumpsStr k ++ ':' :: ' ' :: (dumpsChars v ++ dumpsMembersTail kvs))

/-- Serialization of the remaining array elements, closing bracket included. -/
def dumpsListTail : List Json → List Char
  | [] => [']']
  | x :: xs => ',' :: ' ' :: (dumpsChars x ++ dumpsListTail xs)

/-- Serialization of the remaining object members, closing brace included. -/
def dumpsMembersTail : List (String × Json) → List Char
  | [] => ['}']
  | (k, v) :: kvs =>
      ',' :: ' ' :: (dumpsStr k ++ ':' :: ' ' :: (dumpsChars v ++ dumpsMembersTail kvs))

end

/-- `json.dumps` as a string. -/
def Json.dumps (j : Json) : String := ⟨dumpsChars j⟩

/-- A character that `json.dumps` emits verbatim inside a string literal. -/
def plainChar (c : Char) : Bool :=
  32 ≤ c.toNat && c.toNat ≤ 126 && !(c == '"') && !(c == '\\')

/-- A string that serializes verbatim. -/
def plainStr (s : String) : Bool := s.data.all plainChar

/-- Object key lists without duplicate keys. -/
def nodupKeys : List (String × Json) → Bool
  | [] => true
  | (k, _) :: r => r.all (fun kv => !(kv.1 == k)) && nodupKeys r

mutual

/-- Plain JSON values: strings need no escaping and objects have unique
keys, so serialization is invertible. -/
def Json.plain : Json → Bool
  | .null => true
  | .bool _ => true
  | .num _ => true
  | .str s => plainStr s
  | .arr xs => plainList xs
  | .obj kvs => plainMembers kvs && nodupKeys kvs

/-- All elements plain. -/
def plainList : List Json → Bool
  | [] => true
  | x :: xs => x.plain && plainList xs

/-- All keys plain strings, all values plain, keys unique. -/
def plainMembers : List (String × Json) → Bool
  | [] => true
  | (k, v) :: r => plainStr k && v.plain && (plainMembers r && nodupKeys r)

end

mutual

/-- Structural size of a JSON value, used to bound parser fuel. -/
def Json.size : Json → Nat
  | .null => 1
  | .bool _ => 1
  | .num _ => 1
  | .str _ => 1
  | .arr xs => sizeList xs + 1
  | .obj kvs => sizeMembers kvs + 1

/-- Total size of array elements. -/
def sizeList : List Json → Nat
  | [] => 0
  | x :: xs => x.size + sizeList xs

/-- Total size of object member values (one extra unit per member for the
member-parsing step). -/
def sizeMembers : List (String × Json) → Nat
  | [] => 0
  | (_, v) :: r => v.size + 1 + sizeMembers r

end

/-- `str.strip()` whitespace (ASCII fragment). -/
def pyIsSpace (c : Char) : Bool :=
  c == ' ' || c == '\t' || c == '\n' || c == '\r' || c == '\x0b' || c == '\x0c'

/-- Python `str.strip()`. -/
def pyStrip (s : String) : String :=
  ⟨((s.data.dropWhile pyIsSpace).reverse.dropWhile pyIsSpace).reverse⟩

/-- Python `str.lower()` (ASCII fragment). -/
def pyLower (s : String) : String := ⟨s.data.map Char.toLower⟩

/-- Python `str.capitalize()`: first character uppercased, the rest
lowercased (ASCII fragment). -/
def pyCapitalize (s : String) : String :=
  match s.data with
  | [] => ""
  | c :: cs => ⟨Char.toUpper c :: cs.map Char.toLower⟩

mutual

/-- Python `repr` of a parsed JSON value (quotes around strings; containers
rendered recursively).  Only scalar cases are exercised by the pipeline. -/
def pyRepr : Json → String
  | .null => "None"
  | .bool true => "True"
  | .bool false => "False"
  | .num i => ⟨intDumps i⟩
  | .str s => "'" ++ s ++ "'"
  | .arr [] => "[]"
  | .arr (x :: xs) => "[" ++ pyRepr x ++ pyReprListTail xs
  | .obj [] => "{}"
  | .obj ((k, v) :: kvs) => "\x7b'" ++ k ++ "': " ++ pyRepr v ++ pyReprMembersTail kvs

/-- Remaining list elements of a `repr`. -/
def pyReprListTail : List Json → String
  | [] => "]"
  | x :: xs => ", " ++ pyRepr x ++ pyReprListTail xs

/-- Remaining dict members of a `repr`. -/
def pyReprMembersTail : List (String × Json) → String
  | [] => "\x7d"
  | (k, v) :: kvs => ", '" ++ k ++ "': " ++ pyRepr v ++ pyReprMembersTail kvs

end

/-- Python `str()` of a parsed JSON value, as used by f-string interpolation. -/
def pyStr : Json → String
  | .str s => s
  | v => pyRepr v

/-! ## Response reconciliation (`MetricsExtractor.extract_metrics`) -/

/-- Last index at which `t` occurs. -/
def findLast (t : Char) : List Char → Option Nat
  | [] => none
  | c :: cs =>
    match findLast t cs with
    | some i => some (i + 1)
    | none => if c = t then some 0 else none

/-- `re.search(r'(\[.*\]|\{.*\})', text, re.DOTALL)`: scanning left to
right, the first `[` (resp. `{`) having a matching close anywhere to its
right starts the match, and `.*` is greedy, so the match extends to the
last such close in the whole text. -/
def bracketSpanGo : List Char → Option (List Char)
  | [] => none
  | c :: rest =>
    if c = '[' then
      match findLast ']' rest with
      | some i => some (c :: rest.take (i + 1))
      | none => bracketSpanGo rest
    else if c = '{' then
      match findLast '}' rest with
      | some i => some (c :: rest.take (i + 1))
      | none => bracketSpanGo rest
    else bracketSpanGo rest

/-- The regex-extracted bracket span of a string, if any. -/
def bracketSpan (s : String) : Option String :=
  (bracketSpanGo s.data).map (fun l => ⟨l⟩)

/-- Stamp one parsed array element: only dict elements are kept, each gets
`item["source_page"] = page`. -/
def stampObj (page : Json) : Json → Option Record
  | .obj kvs => some (insertKV kvs "source_page" page)
  | _ => none

/-- Lines 51–59 / 63–71 of `gemini_extractor.py`: a parsed array keeps
exactly its dict elements (stamped); a parsed dict is wrapped as one
record; any other parsed value yields nothing. -/
def collectStamp (parsed : Json) (page : Json) : List Record :=
  match parsed with
  | .arr xs => xs.filterMap (stampObj page)
  | .obj kvs => [insertKV kvs "source_page" page]
  | _ => []

/-- The per-chunk reconciliation step of `extract_metrics` (lines 48–76):
strip, try `json.loads` directly, else regex-extract a bracket span and
`json.loads` it — this second parse is *not* guarded by a `try`, so its
failure raises `json.JSONDecodeError` — else append the synthetic
"unparsed" record. -/
def reconcileChunk (raw : String) (page : Json) : Except PyErr (List Record) :=
  let t := pyStrip raw
  match Json.loads t with
  | some parsed => .ok (collectStamp parsed page)
  | none =>
    match bracketSpan t with
    | some span =>
      match Json.loads span with
      | some parsed => .ok (collectStamp parsed page)
      | none => .error .jsonDecodeError
    | none => .ok [[("raw_output", Json.str t), ("source_page", page)]]

/-- A text chunk handed to the extractor: absolute page number and text. -/
structure Chunk where
  page_number : Int
  text : String

/-- `extract_metrics` over a list of chunks, counting oracle invocations;
an uncaught exception aborts the loop (calls made so far are recorded). -/
def extractMetricsAux (oracle : Int → String → String) :
    List Chunk → Nat → List Record → Nat × Except PyErr (List Record)
  | [], n, acc => (n, .ok acc)
  | c :: rest, n, acc =>
    let raw := oracle c.page_number c.text
    match reconcileChunk raw (Json.num c.page_number) with
    | .ok ms => extractMetricsAux oracle rest (n + 1) (acc ++ ms)
    | .error e => (n + 1, .error e)

/-- `MetricsExtractor.extract_metrics`: one oracle call per chunk, results
concatenated in chunk order. -/
def extractMetrics (oracle : Int → String → String) (chunks : List Chunk) :
    Nat × Except PyErr (List Record) :=
  extractMetricsAux oracle chunks 0 []

/-- `MetricsExtractor.__init__` (gemini_extractor.py lines 7–12): fall back
to the environment variable, then reject `None` and the empty string. -/
def MetricsExtractor.init (apiKey : Option String) (envKey : Option String) :
    Except PyErr String :=
  let k := match apiKey with
           | none => envKey
           | some s => some s
  match k with
  | none => .error .valueError
  | some s => if s = "" then .error .valueError else .ok s

/-! ## Normalization and persistence (`app/main.py`) -/

/-- The three recognized category labels. -/
def categoryEnum : List String := ["Environmental", "Social", "Governance"]

/-- Lines 125–129 of `main.py`: stamp the `source` citation, then coerce
the category.  `m.get("category", "").capitalize()` raises
`AttributeError` when the stored category is not a string; on a
recognized capitalization the record is left untouched (the capitalized
form is *not* written back), otherwise `category` is set to
`"Environmental"`. -/
def normalizeRecord (fileName : String) (m : Record) : Except PyErr Record :=
  let sp := getD m "source_page" (Json.str "unknown")
  let m1 := insertKV m "source" (Json.str (fileName ++ " - page " ++ pyStr sp))
  match getD m1 "category" (Json.str "") with
  | .str s =>
    if pyCapitalize s ∈ categoryEnum then .ok m1
    else .ok (insertKV m1 "category" (Json.str "Environmental"))
  | _ => .error .attributeError

/-- The normalization loop over one part's records; the first exception
aborts the loop (the part's records are then discarded by the caller). -/
def normalizeAll (fileName : String) : List Record → Except PyErr (List Record)
  | [] => .ok []
  | m :: ms =>
    match normalizeRecord fileName m with
    | .ok m' =>
      match normalizeAll fileName ms with
      | .ok ms' => .ok (m' :: ms')
      | .error e => .error e
    | .error e => .error e

/-- Column keys present in a record list, in order of first appearance
(pandas `DataFrame(list_of_dicts).columns`). -/
def keysUnion (recs : List Record) : List String :=
  recs.foldl (fun acc r => r.foldl (fun a kv => if kv.1 ∈ a then a else a ++ [kv.1]) acc) []

/-- The fixed persisted column order (`columns_order`, main.py line 149). -/
def columnsOrder : List String := ["metric_name", "value", "unit", "year", "category", "source"]

/-- `df[columns_order]` (main.py line 150): pandas raises `KeyError` if any
requested column is absent from every record; otherwise it projects, with
`None` (NaN, written as an empty CSV cell) where a row lacks the column. -/
def projectColumns (recs : List Record) (cols : List String) :
    Except PyErr (List (List (Option Json))) :=
  if cols.all (fun c => c ∈ keysUnion recs) then
    .ok (recs.map (fun r => cols.map (fun c => getVal r c)))
  else .error .keyError

/-- A persisted result table: the projected rows of one document. -/
abbrev ProjTable := List (List (Option Json))

/-- The persisted `data/extracted_results` directory, keyed by document stem. -/
abbrev Store := List (String × ProjTable)

/-- Lookup of a persisted table. -/
def lookupStore (store : Store) (stem : String) : Option ProjTable :=
  match store with
  | [] => none
  | (k, t) :: rest => if k = stem then some t else lookupStore rest stem

/-- `Path(name).stem`: the filename without its last suffix (a suffix must
be introduced by a dot with some non-dot character before it). -/
def pathStem (name : String) : String :=
  match findLast '.' name.data with
  | some i =>
    if (name.data.take i).all (fun c => c = '.') then name else ⟨name.data.take i⟩
  | none => name

/-- Per-part loop of `main.py` (lines 109–141): page numbers continue from
`page_offset`, each part is extracted then normalized inside one `try`;
an exception drops the part's records, leaves `page_offset` unchanged
(line 133 is skipped), and processing continues with the next part. -/
def processParts (fileName : String) (oracle : Int → String → String) :
    List (List String) → Int → Nat → List Record → Nat × List Record
  | [], _, calls, acc => (calls, acc)
  | part :: rest, offset, calls, acc =>
    let chunks := (List.range part.length).zipWith
      (fun (i : Nat) text => Chunk.mk (offset + (i : Int) + 1) text) part
    let (c, res) := extractMetrics oracle chunks
    match res with
    | .ok ms =>
      match normalizeAll fileName ms with
      | .ok ms' => processParts fileName oracle rest (offset + part.length) (calls + c) (acc ++ ms')
      | .error _ => processParts fileName oracle rest offset (calls + c) acc
    | .error _ => processParts fileName oracle rest offset (calls + c) acc

/-- Outcome of one run of the extraction page. -/
inductive RunOutcome where
  | noKey
  | cachedHit (t : ProjTable)
  | saved (t : ProjTable)
  | noMetrics
  | fatal (e : PyErr)

/-- Result of one run: oracle invocations made, store afterwards, outcome. -/
structure RunResult where
  calls : Nat
  store : Store
  outcome : RunOutcome

/-- The end-to-end extraction pipeline of `main.py` for one uploaded file:
API-key guard (lines 62–64), persisted-CSV short-circuit (lines 77–82),
per-part processing, then projection to the fixed columns and saving
(lines 146–154; nothing is saved when no metrics were collected, and a
projection `KeyError` propagates without saving). -/
def runApp (apiKey : String) (store : Store) (fileName : String)
    (parts : List (List String)) (oracle : Int → String → String) : RunResult :=
  if apiKey = "" then ⟨0, store, .noKey⟩
  else
    match lookupStore store (pathStem fileName) with
    | some t => ⟨0, store, .cachedHit t⟩
    | none =>
      match processParts fileName oracle parts 0 0 [] with
      | (calls, allMetrics) =>
        if allMetrics.isEmpty then ⟨calls, store, .noMetrics⟩
        else
          match projectColumns allMetrics columnsOrder with
          | .ok rows => ⟨calls, (pathStem fileName, rows) :: store, .saved rows⟩
          | .error e => ⟨calls, store, .fatal e⟩

/-! ## Cross-document comparison (`compare_metrics.py`) -/

/-- Whether, after an array-closing `]`, only whitespace separates it from
a closing fence. -/
def closesFence (cs : List Char) : Bool :=
  match skipWs cs with
  | '`' :: '`' :: '`' :: _ => true
  | _ => false

/-- Characters strictly before the *last* `]` that is followed by
`\s*` + three backticks (the greedy `[\s\S]*` of the fence regex). -/
def lastFenceSplit : List Char → Option (List Char)
  | [] => none
  | c :: rest =>
    match lastFenceSplit rest with
    | some inner => some (c :: inner)
    | none => if c = ']' ∧ closesFence rest then some [] else none

/-- One attempt to complete `(?:json)?\s*(\[[\s\S]*\])\s*`​`` after an
opening fence. -/
def tryFenceBody (cs : List Char) : Option (List Char) :=
  match skipWs cs with
  | '[' :: body =>
    match lastFenceSplit body with
    | some inner => some ('[' :: (inner ++ [']']))
    | none => none
  | _ => none

/-- Strip a literal prefix. -/
def stripPre (p : List Char) (cs : List Char) : Option (List Char) :=
  match p, cs with
  | [], rest => some rest
  | a :: p', b :: cs' => if a = b then stripPre p' cs' else none
  | _ :: _, [] => none

/-- Scan for a fenced array: the regex
`r"```(?:json)?\s*(\[[\s\S]*\])\s*```"` of `extract_json`
(compare_metrics.py lines 11–16).  At each opening fence the optional
`json` tag is tried greedily first; if no body completes, scanning
resumes one character further. -/
def fencedArray : List Char → Option (List Char)
  | [] => none
  | c :: rest =>
    if c = '`' then
      match stripPre ['`', '`'] rest with
      | some afterFence =>
        (match stripPre ['j', 's', 'o', 'n'] afterFence with
         | some afterTag => tryFenceBody afterTag
         | none => none) <|>
        tryFenceBody afterFence <|>
        fencedArray rest
      | none => fencedArray rest
    else fencedArray rest

/-- `extract_json` (compare_metrics.py lines 11–16): prefer the fenced
array's group, else the whole text; either way stripped. -/
def extractJson (text : String) : String :=
  match fencedArray text.data with
  | some inner => pyStrip ⟨inner⟩
  | none => pyStrip text

/-- `os.path.splitext(f)[0].replace(" ", "_")`. -/
def stemUnderscore (f : String) : String :=
  ⟨(pathStem f).data.map (fun c => if c = ' ' then '_' else c)⟩

/-- The comparison cache filename (compare_metrics.py lines 102–104): the
selected filenames enter the key *in the order supplied*. -/
def cacheKey (selected : List String) (category : String) : String :=
  "common_metrics_" ++ pyLower category ++ "_"
    ++ String.intercalate "_" (selected.map stemUnderscore)

/-- A loaded result CSV: its columns and its rows. -/
abbrev CsvTable := List String × List Record

/-- The expected column set checked by `compare_metrics_page`. -/
def expectedCols : List String := ["metric_name", "value", "unit", "year", "category", "source"]

/-- Whether a row survives `df["category"].str.lower() == category.lower()`
(a non-string cell never matches). -/
def matchCat (r : Record) (category : String) : Bool :=
  match getVal r "category" with
  | some (.str s) => pyLower s == pyLower category
  | _ => false

/-- Loading loop of `compare_metrics_page` (lines 126–142): unreadable
files and files without the expected columns are skipped with a warning;
every readable table contributes its category-filtered rows — *even when
the filter leaves zero rows*. -/
def loadFiltered (readCsv : String → Option CsvTable) (selected : List String)
    (category : String) : List (List Record) :=
  selected.filterMap (fun f =>
    match readCsv f with
    | none => none
    | some (cols, rows) =>
      if expectedCols.all (fun c => c ∈ cols) then
        some (rows.filter (fun r => matchCat r category))
      else none)

/-- Outcome of one visit to the comparison page (button pressed). -/
inductive CompareOutcome where
  | loadedFromCache
  | noApiKey
  | insufficient
  | analyzed (groups : Json)
  | badJson

/-- Result of one comparison run: oracle invocations, whether a cache
artifact was written, the cache contents afterwards, and the outcome. -/
structure CompareResult where
  calls : Nat
  wrote : Bool
  cacheAfter : List String
  outcome : CompareOutcome

/-- `compare_metrics_page` (compare_metrics.py lines 70–204) with files
already selected and the button pressed: cache short-circuit first, then
the API-key guard, then the `len(dataframes) < 2` guard (which counts
loaded tables, not tables with matching rows), then one oracle call whose
reconciled output is cached only if it parses. -/
def compareRun (apiKey : String) (cache : List String)
    (readCsv : String → Option CsvTable) (selected : List String)
    (category : String) (response : String) : CompareResult :=
  if cacheKey selected category ∈ cache then ⟨0, false, cache, .loadedFromCache⟩
  else if apiKey = "" then ⟨0, false, cache, .noApiKey⟩
  else if (loadFiltered readCsv selected category).length < 2 then
    ⟨0, false, cache, .insufficient⟩
  else
    match Json.loads (extractJson response) with
    | some groups => ⟨1, true, cacheKey selected category :: cache, .analyzed groups⟩
    | none => ⟨1, false, cache, .badJson⟩

/-- Characters that legitimately follow a serialized value inside a larger
serialized term (or the end of input). -/
def sepHead : List Char → Bool
  | [] => true
  | c :: _ => c == ',' || c == ']' || c == '}'

/-- Total number of pages over all parts. -/
def totalPages (parts : List (List String)) : Nat :=
  (parts.map List.length).sum

/-! ### Round-trip lemmas: basics -/

theorem skipWs_cons {c : Char} (l : List Char) (h : isJsonWs c = false) :
    skipWs (c :: l) = c :: l := by
  simp [skipWs, h]

theorem skipWs_idem (l : List Char) : skipWs (skipWs l) = skipWs l := by
  induction l with
  | nil => rfl
  | cons c t ih =>
    by_cases h : isJsonWs c = true
    · simp [skipWs, h, ih]
    · simp at h
      simp [skipWs, h]

theorem parseVal_ws (fuel : Nat) (cs : List Char) :
    parseVal fuel (skipWs cs) = parseVal fuel cs := by
  cases fuel with
  | zero => rfl
  | succ fuel =>
    unfold parseVal
    rw [skipWs_idem]

theorem parseMember_ws (fuel : Nat) (cs : List Char) :
    parseMember fuel (skipWs cs) = parseMember fuel cs := by
  cases fuel with
  | zero => rfl
  | succ fuel =>
    unfold parseMember
    rw [skipWs_idem]

theorem digitChar_facts (d : Nat) (hd : d < 10) :
    (digitChar d).isDigit = true ∧ isJsonWs (digitChar d) = false ∧
      digitVal (digitChar d) = d ∧ (d ≠ 0 → digitChar d ≠ '0') := by
  interval_cases d <;> refine ⟨by decide, by decide, by decide, ?_⟩ <;> intro h <;> first
    | exact absurd rfl h
    | decide

theorem ne_of_isDigit {c x : Char} (h : c.isDigit = true) (hx : x.isDigit = false) : c ≠ x := by
  intro he
  subst he
  rw [h] at hx
  cases hx

theorem not_ws_of_isDigit {c : Char} (h : c.isDigit = true) : isJsonWs c = false := by
  cases hw : isJsonWs c with
  | false => rfl
  | true =>
    exfalso
    simp only [isJsonWs, Bool.or_eq_true, beq_iff_eq] at hw
    rcases hw with ((h' | h') | h') | h' <;> subst h' <;> exact absurd h (by decide)

/-! ### Round-trip lemmas: numbers -/

theorem sepHead_not_digit {rest : List Char} (h : sepHead rest = true) :
    (∀ c, rest.head? = some c → c.isDigit = false) ∧ floatFollows rest = false := by
  cases rest with
  | nil => exact ⟨fun c hc => by simp at hc, rfl⟩
  | cons c t =>
    simp only [sepHead, Bool.or_eq_true, beq_iff_eq] at h
    rcases h with (h | h) | h <;> subst h <;>
      exact ⟨fun c hc => by cases hc; decide, rfl⟩

theorem readDigits_digits (ds : List Char) (rest : List Char) (acc : Nat)
    (hds : ∀ c ∈ ds, c.isDigit = true)
    (hrest : ∀ c, rest.head? = some c → c.isDigit = false) :
    readDigits (ds ++ rest) acc = (ds.foldl (fun a c => a * 10 + digitVal c) acc, rest) := by
  induction ds generalizing acc with
  | nil =>
    cases rest with
    | nil => rfl
    | cons c t =>
      show (if c.isDigit then readDigits t (acc * 10 + digitVal c) else (acc, c :: t)) = _
      rw [if_neg (by simp [hrest c rfl])]
      rfl
  | cons d ds ih =>
    show (if d.isDigit then readDigits (ds ++ rest) (acc * 10 + digitVal d) else _) = _
    rw [if_pos (hds d (by simp))]
    exact ih _ (fun c hc => hds c (List.mem_cons_of_mem _ hc))

theorem natToRevDigits_zero (f : Nat) : natToRevDigits f 0 = [] := by
  cases f <;> rfl

theorem natToRevDigits_lt (f n : Nat) (h : n ≤ f) :
    ∀ d ∈ natToRevDigits f n, d < 10 := by
  induction f generalizing n with
  | zero => intro d hd; cases hd
  | succ f ih =>
    cases n with
    | zero => intro d hd; cases hd
    | succ m =>
      intro d hd
      simp only [natToRevDigits, List.mem_cons] at hd
      rcases hd with h' | h'
      · subst h'; omega
      · exact ih ((m + 1) / 10) (by omega) d h'

theorem natToRevDigits_val (f n : Nat) (h : n ≤ f) :
    (natToRevDigits f n).foldr (fun d a => d + 10 * a) 0 = n := by
  induction f generalizing n with
  | zero => cases Nat.le_zero.mp h; rfl
  | succ f ih =>
    cases n with
    | zero => rfl
    | succ m =>
      simp only [natToRevDigits, List.foldr_cons]
      rw [ih ((m + 1) / 10) (by omega)]
      omega

theorem natToRevDigits_msd (f n : Nat) (h1 : 1 ≤ n) (h : n ≤ f) :
    ∃ ds d, natToRevDigits f n = ds ++ [d] ∧ d ≠ 0 := by
  induction f generalizing n with
  | zero => omega
  | succ f ih =>
    cases n with
    | zero => omega
    | succ m =>
      by_cases hq : (m + 1) / 10 = 0
      · refine ⟨[], (m + 1) % 10, ?_, ?_⟩
        · simp [natToRevDigits, hq, natToRevDigits_zero]
        · omega
      · obtain ⟨ds, d, hds, hd⟩ := ih ((m + 1) / 10) (by omega) (by omega)
        exact ⟨(m + 1) % 10 :: ds, d, by simp [natToRevDigits, hds], hd⟩

theorem foldl_rev_digits : ∀ (ds : List Nat) (acc : Nat), (∀ d ∈ ds, d < 10) →
    ((ds.map digitChar).reverse).foldl (fun a c => a * 10 + digitVal c) acc =
      acc * 10 ^ ds.length + ds.foldr (fun d a => d + 10 * a) 0 := by
  intro ds
  induction ds with
  | nil => intro acc _; simp
  | cons d ds ih =>
    intro acc hds
    have hd10 : d < 10 := hds d (by simp)
    obtain ⟨_, _, hval, _⟩ := digitChar_facts d hd10
    simp only [List.map_cons, List.reverse_cons, List.foldl_append, List.foldl_cons,
      List.foldl_nil, List.foldr_cons, List.length_cons]
    rw [ih acc (fun e he => hds e (List.mem_cons_of_mem _ he)), hval]
    ring

theorem foldr_digits_base (ds : List Nat) (b : Nat) :
    ds.foldr (fun d a => d + 10 * a) b =
      ds.foldr (fun d a => d + 10 * a) 0 + b * 10 ^ ds.length := by
  induction ds with
  | nil => simp
  | cons d ds ih =>
    simp only [List.foldr_cons, List.length_cons, ih]
    ring

theorem parseNatNum_natDumps (n : Nat) (rest : List Char)
    (hrest : ∀ c, rest.head? = some c → c.isDigit = false) :
    parseNatNum (natDumps n ++ rest) = some (n, rest) := by
  by_cases h0 : n = 0
  · subst h0
    rfl
  · obtain ⟨ds, d, hds, hdne⟩ := natToRevDigits_msd n n (by omega) le_rfl
    have hlt : ∀ e ∈ ds ++ [d], e < 10 := by
      rw [← hds]; exact natToRevDigits_lt n n le_rfl
    have hd10 : d < 10 := hlt d (by simp)
    obtain ⟨hdig, _, hval, hne0⟩ := digitChar_facts d hd10
    have hnd : natDumps n = digitChar d :: (ds.map digitChar).reverse := by
      simp [natDumps, h0, hds]
    have hdigs : ∀ c ∈ (ds.map digitChar).reverse, c.isDigit = true := by
      intro c hc
      simp only [List.mem_reverse, List.mem_map] at hc
      obtain ⟨e, he, rfl⟩ := hc
      exact (digitChar_facts e (hlt e (List.mem_append_left _ he))).1
    rw [hnd]
    show (if digitChar d = '0' then some (0, (ds.map digitChar).reverse ++ rest)
          else if (digitChar d).isDigit then
            some (readDigits ((ds.map digitChar).reverse ++ rest) (digitVal (digitChar d)))
          else none) = _
    rw [if_neg (hne0 hdne), if_pos hdig, hval,
        readDigits_digits _ _ _ hdigs hrest,
        foldl_rev_digits ds d (fun e he => hlt e (List.mem_append_left _ he))]
    have hv := natToRevDigits_val n n le_rfl
    rw [hds, List.foldr_append] at hv
    simp only [List.foldr_cons, List.foldr_nil, Nat.mul_zero, Nat.add_zero] at hv
    rw [foldr_digits_base] at hv
    have : d * 10 ^ ds.length + ds.foldr (fun d a => d + 10 * a) 0 = n := by
      rw [Nat.add_comm]; exact hv
    rw [this]

theorem parseNum_dumps (i : Int) (rest : List Char) (hsep : sepHead rest = true) :
    parseNum (intDumps i ++ rest) = some (Json.num i, rest) := by
  obtain ⟨hnd, hff⟩ := sepHead_not_digit hsep
  by_cases hneg : i < 0
  · rw [show intDumps i = '-' :: natDumps i.natAbs from by simp [intDumps, hneg]]
    have e1 : parseNum (('-' :: natDumps i.natAbs) ++ rest) =
        (match parseNatNum (natDumps i.natAbs ++ rest) with
         | some (n, r') => if floatFollows r' then none else some (Json.num (-(n : Int)), r')
         | none => none) := rfl
    rw [e1, parseNatNum_natDumps i.natAbs rest hnd]
    show (if floatFollows rest then none else some (Json.num (-(i.natAbs : Int)), rest)) = _
    rw [hff, if_neg Bool.false_ne_true]
    have : -(i.natAbs : Int) = i := by omega
    rw [this]
  · rw [show intDumps i = natDumps i.toNat from by simp [intDumps, hneg]]
    have hhead : ∃ c t, natDumps i.toNat = c :: t ∧ c ≠ '-' := by
      by_cases h0 : i.toNat = 0
      · exact ⟨'0', [], by simp [natDumps, h0], by decide⟩
      · obtain ⟨ds, d, hds, _⟩ := natToRevDigits_msd i.toNat i.toNat (by omega) le_rfl
        have hd10 : d < 10 := (natToRevDigits_lt i.toNat i.toNat le_rfl) d (by simp [hds])
        obtain ⟨hdig, _, _, _⟩ := digitChar_facts d hd10
        exact ⟨digitChar d, (ds.map digitChar).reverse, by simp [natDumps, h0, hds],
               ne_of_isDigit hdig (by decide)⟩
    obtain ⟨c, t, hct, hcm⟩ := hhead
    rw [hct]
    have e1 : parseNum ((c :: t) ++ rest) =
        (if c = '-' then
          (match parseNatNum (t ++ rest) with
           | some (n, r') => if floatFollows r' then none else some (Json.num (-(n : Int)), r')
           | none => none)
         else
          (match parseNatNum (c :: (t ++ rest)) with
           | some (n, r') => if floatFollows r' then none else some (Json.num ((n : Nat) : Int), r')
           | none => none)) := rfl
    rw [e1, if_neg hcm, show c :: (t ++ rest) = (c :: t) ++ rest from rfl, ← hct,
        parseNatNum_natDumps i.toNat rest hnd]
    show (if floatFollows rest then none else some (Json.num ((i.toNat : Nat) : Int), rest)) = _
    rw [hff, if_neg Bool.false_ne_true]
    have : ((i.toNat : Nat) : Int) = i := by omega
    rw [this]

/-! ### Round-trip lemmas: strings and objects -/

theorem plainChar_spec {c : Char} (h : plainChar c = true) :
    32 ≤ c.toNat ∧ c.toNat ≤ 126 ∧ c ≠ '"' ∧ c ≠ '\\' := by
  simp only [plainChar, Bool.and_eq_true, decide_eq_true_eq, Bool.not_eq_true',
    beq_eq_false_iff_ne, ne_eq] at h
  exact ⟨h.1.1.1, h.1.1.2, h.1.2, h.2⟩

theorem escapeChar_plain {c : Char} (h : plainChar c = true) : escapeChar c = [c] := by
  obtain ⟨h32, h126, hq, hb⟩ := plainChar_spec h
  unfold escapeChar
  rw [if_neg hq, if_neg hb]
  rw [if_neg (fun he => by rw [he] at h32; exact absurd h32 (by decide))]
  rw [if_neg (fun he => by rw [he] at h32; exact absurd h32 (by decide))]
  rw [if_neg (fun he => by rw [he] at h32; exact absurd h32 (by decide))]
  rw [if_neg (fun he : c.toNat = 8 => by omega)]
  rw [if_neg (fun he : c.toNat = 12 => by omega)]
  rw [if_neg (fun he : _ ∨ _ => by omega)]

theorem flatMap_escape_plain {l : List Char} (h : ∀ c ∈ l, plainChar c = true) :
    l.flatMap escapeChar = l := by
  induction l with
  | nil => rfl
  | cons c t ih =>
    simp only [List.flatMap_cons, escapeChar_plain (h c (by simp)),
      ih (fun e he => h e (List.mem_cons_of_mem _ he)), List.singleton_append]

theorem parseStrBody_plain (l : List Char) : ∀ (fuel : Nat) (acc rest : List Char),
    l.length + 1 ≤ fuel → (∀ c ∈ l, plainChar c = true) →
    parseStrBody fuel acc (l ++ '"' :: rest) = some (⟨acc.reverse ++ l⟩, rest) := by
  induction l with
  | nil =>
    intro fuel acc rest hf _
    match fuel, hf with
    | Nat.succ g, _ =>
      simp only [List.nil_append, List.append_nil]
      rfl
  | cons c t ih =>
    intro fuel acc rest hf h
    match fuel, hf with
    | Nat.succ g, hf =>
      obtain ⟨h32, _, hq, hb⟩ := plainChar_spec (h c (by simp))
      simp only [List.cons_append, parseStrBody]
      rw [if_neg hq, if_neg hb, if_neg (show ¬c.toNat < 32 by omega),
          ih g (c :: acc) rest (by simp at hf ⊢; omega)
            (fun e he => h e (List.mem_cons_of_mem _ he))]
      simp [List.append_assoc]

theorem dumpsStr_plain {s : String} (h : plainStr s = true) :
    dumpsStr s = '"' :: (s.data ++ ['"']) := by
  unfold dumpsStr
  rw [flatMap_escape_plain (by simpa [plainStr, List.all_eq_true] using h)]

theorem parseStrStart_plain (s : String) (rest : List Char) (h : plainStr s = true) :
    parseStrBody ((s.data ++ '"' :: rest).length + 1) [] (s.data ++ '"' :: rest) =
      some (s, rest) := by
  rw [parseStrBody_plain _ _ _ _ (by simp)
      (by simpa [plainStr, List.all_eq_true] using h)]
  rfl

theorem insertKV_fresh (d : Record) (k : String) (v : Json)
    (h : ∀ kv ∈ d, kv.1 ≠ k) : insertKV d k v = d ++ [(k, v)] := by
  induction d with
  | nil => rfl
  | cons kv rest ih =>
    obtain ⟨k', v'⟩ := kv
    show (if k' = k then _ else _) = _
    rw [if_neg (h (k', v') (by simp)), ih (fun e he => h e (List.mem_cons_of_mem _ he))]
    rfl

theorem nodupKeys_spec {k : String} {v : Json} {r : List (String × Json)}
    (h : nodupKeys ((k, v) :: r) = true) :
    (∀ kv ∈ r, kv.1 ≠ k) ∧ nodupKeys r = true := by
  simp only [nodupKeys, Bool.and_eq_true, List.all_eq_true, Bool.not_eq_true',
    beq_eq_false_iff_ne, ne_eq] at h
  exact ⟨fun kv hkv => h.1 kv hkv, h.2⟩

theorem mkObj_foldl (kvs : List (String × Json)) : ∀ (acc : Record),
    (∀ kv ∈ kvs, ∀ a ∈ acc, a.1 ≠ kv.1) → nodupKeys kvs = true →
    kvs.foldl (fun d kv => insertKV d kv.1 kv.2) acc = acc ++ kvs := by
  induction kvs with
  | nil => intro acc _ _; simp
  | cons kv rest ih =>
    intro acc hfresh hnd
    obtain ⟨k, v⟩ := kv
    obtain ⟨hr, hnd'⟩ := nodupKeys_spec hnd
    simp only [List.foldl_cons]
    rw [insertKV_fresh acc k v (fun a ha => hfresh (k, v) (by simp) a ha)]
    rw [ih (acc ++ [(k, v)]) ?_ hnd']
    · simp
    · intro kv hkv a ha
      rcases List.mem_append.mp ha with h' | h'
      · exact hfresh kv (List.mem_cons_of_mem _ hkv) a h'
      · simp only [List.mem_singleton] at h'
        subst h'
        exact fun he => hr kv hkv he.symm

theorem mkObj_nodup (kvs : List (String × Json)) (h : nodupKeys kvs = true) :
    mkObj kvs = kvs := by
  unfold mkObj
  rw [mkObj_foldl kvs [] (fun kv _ a ha => absurd ha (by simp)) h]
  rfl

/-! ### Round-trip lemmas: dispatch and head shapes -/

theorem size_pos (j : Json) : 1 ≤ j.size := by
  cases j <;> simp [Json.size]

theorem natDumps_head (n : Nat) : ∃ c t, natDumps n = c :: t ∧ c.isDigit = true := by
  by_cases h0 : n = 0
  · exact ⟨'0', [], by simp [natDumps, h0], by decide⟩
  · obtain ⟨ds, d, hds, _⟩ := natToRevDigits_msd n n (by omega) le_rfl
    have hd10 : d < 10 := (natToRevDigits_lt n n le_rfl) d (by simp [hds])
    exact ⟨digitChar d, (ds.map digitChar).reverse, by simp [natDumps, h0, hds],
           (digitChar_facts d hd10).1⟩

theorem intDumps_head (i : Int) :
    ∃ c t, intDumps i = c :: t ∧ (c.isDigit = true ∨ c = '-') := by
  by_cases hneg : i < 0
  · exact ⟨'-', natDumps i.natAbs, by simp [intDumps, hneg], Or.inr rfl⟩
  · obtain ⟨c, t, hct, hcd⟩ := natDumps_head i.toNat
    exact ⟨c, t, by simp [intDumps, hneg, hct], Or.inl hcd⟩

theorem dumpsChars_head (j : Json) :
    ∃ c t, dumpsChars j = c :: t ∧ isJsonWs c = false ∧ c ≠ ']' ∧ c ≠ '}' := by
  cases j with
  | num i =>
    obtain ⟨c, t, hct, hcd⟩ := intDumps_head i
    refine ⟨c, t, hct, ?_, ?_, ?_⟩ <;> rcases hcd with hcd | hcd
    · exact not_ws_of_isDigit hcd
    · subst hcd; decide
    · exact ne_of_isDigit hcd (by decide)
    · subst hcd; decide
    · exact ne_of_isDigit hcd (by decide)
    · subst hcd; decide
  | null => refine ⟨'n', _, rfl, ?_, ?_, ?_⟩ <;> decide
  | bool b =>
    cases b
    · refine ⟨'f', _, rfl, ?_, ?_, ?_⟩ <;> decide
    · refine ⟨'t', _, rfl, ?_, ?_, ?_⟩ <;> decide
  | str s => refine ⟨'"', _, rfl, ?_, ?_, ?_⟩ <;> decide
  | arr xs =>
    cases xs
    · refine ⟨'[', _, rfl, ?_, ?_, ?_⟩ <;> decide
    · refine ⟨'[', _, rfl, ?_, ?_, ?_⟩ <;> decide
  | obj kvs =>
    match kvs with
    | [] => refine ⟨'\x7b', _, rfl, ?_, ?_, ?_⟩ <;> decide
    | (k, v) :: kvs => refine ⟨'\x7b', _, rfl, ?_, ?_, ?_⟩ <;> decide

theorem sepHead_dumpsListTail (xs : List Json) (rest : List Char) :
    sepHead (dumpsListTail xs ++ rest) = true := by
  cases xs <;> rfl

theorem sepHead_dumpsMembersTail (kvs : List (String × Json)) (rest : List Char) :
    sepHead (dumpsMembersTail kvs ++ rest) = true := by
  match kvs with
  | [] => rfl
  | (k, v) :: kvs => rfl

theorem parseVal_dispatch_num (fuel : Nat) (c : Char) (r : List Char)
    (hc : c.isDigit = true ∨ c = '-') :
    parseVal (fuel + 1) (c :: r) = parseNum (c :: r) := by
  have hws : isJsonWs c = false := by
    rcases hc with hc | hc
    · exact not_ws_of_isDigit hc
    · subst hc; decide
  have hne : c ≠ '"' ∧ c ≠ '[' ∧ c ≠ '{' ∧ c ≠ 'n' ∧ c ≠ 't' ∧ c ≠ 'f' := by
    rcases hc with hc | hc
    · exact ⟨ne_of_isDigit hc (by decide), ne_of_isDigit hc (by decide),
             ne_of_isDigit hc (by decide), ne_of_isDigit hc (by decide),
             ne_of_isDigit hc (by decide), ne_of_isDigit hc (by decide)⟩
    · subst hc; exact ⟨by decide, by decide, by decide, by decide, by decide, by decide⟩
  obtain ⟨h1, h2, h3, h4, h5, h6⟩ := hne
  simp only [parseVal]
  rw [skipWs_cons _ hws]
  dsimp only
  rw [if_neg h1, if_neg h2, if_neg h3, if_neg h4, if_neg h5, if_neg h6]

/-! ### The serialization round-trip -/

mutual

theorem parseVal_dumps : ∀ (fuel : Nat) (j : Json) (rest : List Char),
    Json.plain j = true → j.size ≤ fuel → sepHead rest = true →
    parseVal fuel (dumpsChars j ++ rest) = some (j, rest)
  | 0, j, _ => fun _ hs _ => absurd hs (by have := size_pos j; omega)
  | Nat.succ _, .null, _ => fun _ _ _ => rfl
  | Nat.succ _, .bool true, _ => fun _ _ _ => rfl
  | Nat.succ _, .bool false, _ => fun _ _ _ => rfl
  | Nat.succ g, .num i, rest => fun _ _ hsep => by
    obtain ⟨c, t, hct, hcd⟩ := intDumps_head i
    have h1 : dumpsChars (Json.num i) = intDumps i := rfl
    rw [h1, hct, List.cons_append, parseVal_dispatch_num g c (t ++ rest) hcd,
        ← List.cons_append, ← hct]
    exact parseNum_dumps i rest hsep
  | Nat.succ g, .str s, rest => fun hp _ _ => by
    have hps : plainStr s = true := by simpa [Json.plain] using hp
    have h1 : dumpsChars (Json.str s) ++ rest = '"' :: (s.data ++ '"' :: rest) := by
      show dumpsStr s ++ rest = _
      rw [dumpsStr_plain hps]
      simp
    rw [h1]
    have e1 : parseVal (g + 1) ('"' :: (s.data ++ '"' :: rest)) =
        (match parseStrBody ((s.data ++ '"' :: rest).length + 1) [] (s.data ++ '"' :: rest) with
         | some (s', r') => some (Json.str s', r')
         | none => none) := rfl
    rw [e1, parseStrStart_plain s rest hps]
  | Nat.succ _, .arr [], rest => fun _ _ _ => rfl
  | Nat.succ g, .arr (x :: xs), rest => fun hp hs hsep => by
    have hp' : x.plain = true ∧ plainList xs = true := by
      simpa [Json.plain, plainList, Bool.and_eq_true] using hp
    have hszx := size_pos x
    have hsz : x.size + sizeList xs + 1 ≤ g + 1 := by
      simpa [Json.size, sizeList] using hs
    obtain ⟨c, t, hct, hws, hnrb, _⟩ := dumpsChars_head x
    have e1 : parseVal (g + 1) (dumpsChars (Json.arr (x :: xs)) ++ rest) =
        (match skipWs ((dumpsChars x ++ dumpsListTail xs) ++ rest) with
         | ']' :: r' => some (Json.arr [], r')
         | _ =>
           match parseVal g ((dumpsChars x ++ dumpsListTail xs) ++ rest) with
           | some (v, r') =>
             (match parseArrRest g r' with
              | some (vs, r'') => some (Json.arr (v :: vs), r'')
              | none => none)
           | none => none) := rfl
    rw [e1]
    have hskip : skipWs ((dumpsChars x ++ dumpsListTail xs) ++ rest)
        = (dumpsChars x ++ dumpsListTail xs) ++ rest := by
      rw [hct]
      simp only [List.cons_append]
      exact skipWs_cons _ hws
    rw [hskip]
    split
    · next r' heq =>
      exfalso
      rw [hct] at heq
      simp only [List.cons_append, List.cons.injEq] at heq
      exact hnrb heq.1
    · next heq =>
      rw [List.append_assoc,
          parseVal_dumps g x (dumpsListTail xs ++ rest) hp'.1 (by omega)
            (sepHead_dumpsListTail xs rest)]
      show (match parseArrRest g (dumpsListTail xs ++ rest) with
            | some (vs, r'') => some (Json.arr (x :: vs), r'')
            | none => none) = some (Json.arr (x :: xs), rest)
      rw [parseArrRest_dumps g xs rest hp'.2 (by omega) hsep]
  | Nat.succ _, .obj [], rest => fun _ _ _ => rfl
  | Nat.succ g, .obj ((k, v) :: kvs), rest => fun hp hs hsep => by
    have hp0 := hp
    simp only [Json.plain, plainMembers, Bool.and_eq_true] at hp0
    obtain ⟨⟨⟨hpk, hpv⟩, hpm, _⟩, hndAll⟩ := hp0
    have hsv := size_pos v
    have hsz : v.size + 1 + sizeMembers kvs + 1 ≤ g + 1 := by
      simpa [Json.size, sizeMembers] using hs
    have e1 : parseVal (g + 1) (dumpsChars (Json.obj ((k, v) :: kvs)) ++ rest) =
        (match skipWs ((dumpsStr k ++ ':' :: ' ' :: (dumpsChars v ++ dumpsMembersTail kvs)) ++ rest) with
         | '}' :: r' => some (Json.obj [], r')
         | _ =>
           match parseMember g ((dumpsStr k ++ ':' :: ' ' :: (dumpsChars v ++ dumpsMembersTail kvs)) ++ rest) with
           | some (kv, r') =>
             (match parseObjRest g r' with
              | some (kvs', r'') => some (Json.obj (mkObj (kv :: kvs')), r'')
              | none => none)
           | none => none) := rfl
    rw [e1]
    have hdk : dumpsStr k = '"' :: (k.data.flatMap escapeChar ++ ['"']) := rfl
    have hskip : skipWs ((dumpsStr k ++ ':' :: ' ' :: (dumpsChars v ++ dumpsMembersTail kvs)) ++ rest)
        = (dumpsStr k ++ ':' :: ' ' :: (dumpsChars v ++ dumpsMembersTail kvs)) ++ rest := by
      rw [hdk]
      simp only [List.cons_append]
      exact skipWs_cons _ (by decide)
    rw [hskip]
    split
    · next r' heq =>
      exfalso
      rw [hdk] at heq
      simp only [List.cons_append, List.cons.injEq] at heq
      exact absurd heq.1 (by decide)
    · next heq =>
      have harr : (dumpsStr k ++ ':' :: ' ' :: (dumpsChars v ++ dumpsMembersTail kvs)) ++ rest
          = dumpsStr k ++ ':' :: ' ' :: (dumpsChars v ++ (dumpsMembersTail kvs ++ rest)) := by
        simp [List.append_assoc]
      rw [harr,
          parseMember_dumps g k v (dumpsMembersTail kvs ++ rest) hpk hpv
            (by omega) (sepHead_dumpsMembersTail kvs rest)]
      show (match parseObjRest g (dumpsMembersTail kvs ++ rest) with
            | some (kvs', r'') => some (Json.obj (mkObj ((k, v) :: kvs')), r'')
            | none => none) = some (Json.obj ((k, v) :: kvs), rest)
      rw [parseObjRest_dumps g kvs rest hpm (by omega) hsep]
      show some (Json.obj (mkObj ((k, v) :: kvs)), rest) = some (Json.obj ((k, v) :: kvs), rest)
      rw [mkObj_nodup _ hndAll]

theorem parseArrRest_dumps : ∀ (fuel : Nat) (xs : List Json) (rest : List Char),
    plainList xs = true → sizeList xs + 1 ≤ fuel → sepHead rest = true →
    parseArrRest fuel (dumpsListTail xs ++ rest) = some (xs, rest)
  | 0, _, _ => fun _ hs _ => absurd hs (by omega)
  | Nat.succ _, [], _ => fun _ _ _ => rfl
  | Nat.succ g, y :: ys, rest => fun hp hsz hsep => by
    have hp' : y.plain = true ∧ plainList ys = true := by
      simpa [plainList, Bool.and_eq_true] using hp
    have hsy := size_pos y
    have hsz' : y.size + sizeList ys ≤ g := by
      simpa [sizeList] using hsz
    have e1 : parseArrRest (g + 1) (dumpsListTail (y :: ys) ++ rest) =
        (match parseVal g (' ' :: ((dumpsChars y ++ dumpsListTail ys) ++ rest)) with
         | some (v, r') =>
           (match parseArrRest g r' with
            | some (vs, r'') => some (v :: vs, r'')
            | none => none)
         | none => none) := rfl
    rw [e1]
    have hv0 : parseVal g (' ' :: ((dumpsChars y ++ dumpsListTail ys) ++ rest))
        = parseVal g ((dumpsChars y ++ dumpsListTail ys) ++ rest) :=
      (parseVal_ws g (' ' :: ((dumpsChars y ++ dumpsListTail ys) ++ rest))).symm.trans
        (parseVal_ws g ((dumpsChars y ++ dumpsListTail ys) ++ rest))
    have hv1 : parseVal g (' ' :: ((dumpsChars y ++ dumpsListTail ys) ++ rest))
        = parseVal g (dumpsChars y ++ (dumpsListTail ys ++ rest)) := by
      rw [hv0, List.append_assoc]
    rw [hv1, parseVal_dumps g y (dumpsListTail ys ++ rest) hp'.1 (by omega)
          (sepHead_dumpsListTail ys rest)]
    show (match parseArrRest g (dumpsListTail ys ++ rest) with
          | some (vs, r'') => some (y :: vs, r'')
          | none => none) = some (y :: ys, rest)
    rw [parseArrRest_dumps g ys rest hp'.2 (by omega) hsep]

theorem parseMember_dumps : ∀ (fuel : Nat) (k : String) (v : Json) (rest : List Char),
    plainStr k = true → Json.plain v = true → v.size + 1 ≤ fuel → sepHead rest = true →
    parseMember fuel (dumpsStr k ++ ':' :: ' ' :: (dumpsChars v ++ rest)) = some ((k, v), rest)
  | 0, _, v, _ => fun _ _ hs _ => absurd hs (by have := size_pos v; omega)
  | Nat.succ g, k, v, rest => fun hk hv hsz hsep => by
    have hd : dumpsStr k ++ ':' :: ' ' :: (dumpsChars v ++ rest)
        = '"' :: (k.data ++ '"' :: (':' :: ' ' :: (dumpsChars v ++ rest))) := by
      rw [dumpsStr_plain hk]
      simp
    rw [hd]
    have e1 : parseMember (g + 1)
        ('"' :: (k.data ++ '"' :: (':' :: ' ' :: (dumpsChars v ++ rest)))) =
        (match parseStrBody ((k.data ++ '"' :: (':' :: ' ' :: (dumpsChars v ++ rest))).length + 1)
            [] (k.data ++ '"' :: (':' :: ' ' :: (dumpsChars v ++ rest))) with
         | some (k', r') =>
           (match skipWs r' with
            | ':' :: r'' =>
              (match parseVal g r'' with
               | some (v', r3) => some ((k', v'), r3)
               | none => none)
            | _ => none)
         | none => none) := rfl
    rw [e1, parseStrStart_plain k (':' :: ' ' :: (dumpsChars v ++ rest)) hk]
    show (match parseVal g (' ' :: (dumpsChars v ++ rest)) with
          | some (v', r3) => some ((k, v'), r3)
          | none => none) = some ((k, v), rest)
    have hv1 : parseVal g (' ' :: (dumpsChars v ++ rest))
        = parseVal g (dumpsChars v ++ rest) :=
      (parseVal_ws g (' ' :: (dumpsChars v ++ rest))).symm.trans
        (parseVal_ws g (dumpsChars v ++ rest))
    rw [hv1, parseVal_dumps g v rest hv (by omega) hsep]

theorem parseObjRest_dumps : ∀ (fuel : Nat) (kvs : List (String × Json)) (rest : List Char),
    plainMembers kvs = true → sizeMembers kvs + 1 ≤ fuel → sepHead rest = true →
    parseObjRest fuel (dumpsMembersTail kvs ++ rest) = some (kvs, rest)
  | 0, _, _ => fun _ hs _ => absurd hs (by omega)
  | Nat.succ _, [], _ => fun _ _ _ => rfl
  | Nat.succ g, (k, v) :: kvs, rest => fun hp hsz hsep => by
    have hp0 := hp
    simp only [plainMembers, Bool.and_eq_true] at hp0
    obtain ⟨⟨hpk, hpv⟩, hpm, _⟩ := hp0
    have hsv := size_pos v
    have hsz' : v.size + 1 + sizeMembers kvs + 1 ≤ g + 1 := by
      simpa [sizeMembers] using hsz
    have e1 : parseObjRest (g + 1) (dumpsMembersTail ((k, v) :: kvs) ++ rest) =
        (match parseMember g
            (' ' :: ((dumpsStr k ++ ':' :: ' ' :: (dumpsChars v ++ dumpsMembersTail kvs)) ++ rest)) with
         | some (kv, r') =>
           (match parseObjRest g r' with
            | some (kvs', r'') => some (kv :: kvs', r'')
            | none => none)
         | none => none) := rfl
    rw [e1]
    have hm0 : parseMember g
        (' ' :: ((dumpsStr k ++ ':' :: ' ' :: (dumpsChars v ++ dumpsMembersTail kvs)) ++ rest))
        = parseMember g ((dumpsStr k ++ ':' :: ' ' :: (dumpsChars v ++ dumpsMembersTail kvs)) ++ rest) :=
      (parseMember_ws g
        (' ' :: ((dumpsStr k ++ ':' :: ' ' :: (dumpsChars v ++ dumpsMembersTail kvs)) ++ rest))).symm.trans
        (parseMember_ws g ((dumpsStr k ++ ':' :: ' ' :: (dumpsChars v ++ dumpsMembersTail kvs)) ++ rest))
    have hm1 : parseMember g
        (' ' :: ((dumpsStr k ++ ':' :: ' ' :: (dumpsChars v ++ dumpsMembersTail kvs)) ++ rest))
        = parseMember g (dumpsStr k ++ ':' :: ' ' :: (dumpsChars v ++ (dumpsMembersTail kvs ++ rest))) := by
      rw [hm0]
      simp [List.append_assoc]
    rw [hm1, parseMember_dumps g k v (dumpsMembersTail kvs ++ rest) hpk hpv
          (by omega) (sepHead_dumpsMembersTail kvs rest)]
    show (match parseObjRest g (dumpsMembersTail kvs ++ rest) with
          | some (kvs', r'') => some ((k, v) :: kvs', r'')
          | none => none) = some ((k, v) :: kvs, rest)
    rw [parseObjRest_dumps g kvs rest hpm (by omega) hsep]

end

/-! ### Wrap-up: `loads` of `dumps`, bracket spans, stripping -/

mutual

theorem size_le_dumps : ∀ j : Json, j.size ≤ (dumpsChars j).length
  | .null => by simp [Json.size, dumpsChars]
  | .bool true => by simp [Json.size, dumpsChars]
  | .bool false => by simp [Json.size, dumpsChars]
  | .num i => by
    obtain ⟨c, t, hct, _⟩ := intDumps_head i
    show Json.size (Json.num i) ≤ (intDumps i).length
    rw [hct]
    simp [Json.size]
  | .str s => by
    show Json.size (Json.str s) ≤ (dumpsStr s).length
    simp [Json.size, dumpsStr]
  | .arr [] => by simp [Json.size, sizeList, dumpsChars]
  | .arr (x :: xs) => by
    have h1 := size_le_dumps x
    have h2 := sizeList_le_dumpsListTail xs
    show sizeList (x :: xs) + 1 ≤ ('[' :: (dumpsChars x ++ dumpsListTail xs)).length
    simp only [sizeList, List.length_cons, List.length_append]
    omega
  | .obj [] => by simp [Json.size, sizeMembers, dumpsChars]
  | .obj ((k, v) :: kvs) => by
    have h1 := size_le_dumps v
    have h2 := sizeMembers_le_dumpsMembersTail kvs
    show sizeMembers ((k, v) :: kvs) + 1 ≤
      ('{' :: (dumpsStr k ++ ':' :: ' ' :: (dumpsChars v ++ dumpsMembersTail kvs))).length
    simp only [sizeMembers, List.length_cons, List.length_append]
    omega

theorem sizeList_le_dumpsListTail : ∀ xs : List Json, sizeList xs + 1 ≤ (dumpsListTail xs).length
  | [] => by simp [sizeList, dumpsListTail]
  | x :: xs => by
    have h1 := size_le_dumps x
    have h2 := sizeList_le_dumpsListTail xs
    show sizeList (x :: xs) + 1 ≤ (',' :: ' ' :: (dumpsChars x ++ dumpsListTail xs)).length
    simp only [sizeList, List.length_cons, List.length_append]
    omega

theorem sizeMembers_le_dumpsMembersTail :
    ∀ kvs : List (String × Json), sizeMembers kvs + 1 ≤ (dumpsMembersTail kvs).length
  | [] => by simp [sizeMembers, dumpsMembersTail]
  | (k, v) :: kvs => by
    have h1 := size_le_dumps v
    have h2 := sizeMembers_le_dumpsMembersTail kvs
    show sizeMembers ((k, v) :: kvs) + 1 ≤
      (',' :: ' ' :: (dumpsStr k ++ ':' :: ' ' :: (dumpsChars v ++ dumpsMembersTail kvs))).length
    simp only [sizeMembers, List.length_cons, List.length_append]
    omega

end

theorem loads_dumps (j : Json) (hp : j.plain = true) :
    Json.loads (Json.dumps j) = some j := by
  have hfuel : j.size ≤ (dumpsChars j).length + 1 :=
    le_trans (size_le_dumps j) (by omega)
  have h2 : parseVal ((dumpsChars j).length + 1) (dumpsChars j) = some (j, []) := by
    have h := parseVal_dumps ((dumpsChars j).length + 1) j [] hp hfuel rfl
    rwa [List.append_nil] at h
  show (match parseVal ((dumpsChars j).length + 1) (dumpsChars j) with
        | some (v, rest) => if skipWs rest = [] then some v else none
        | none => none) = some j
  rw [h2]
  rfl

theorem findLast_not_mem {t : Char} {ys : List Char} (h : ∀ c ∈ ys, c ≠ t) :
    findLast t ys = none := by
  induction ys with
  | nil => rfl
  | cons c cs ih =>
    simp only [findLast, ih (fun e he => h e (List.mem_cons_of_mem _ he))]
    rw [if_neg (h c (by simp))]

theorem findLast_append_right {t : Char} (xs : List Char) {ys : List Char}
    (h : ∀ c ∈ ys, c ≠ t) : findLast t (xs ++ ys) = findLast t xs := by
  induction xs with
  | nil => simp [findLast_not_mem h, findLast]
  | cons c cs ih =>
    simp only [List.cons_append, findLast]
    rw [show cs.append ys = cs ++ ys from rfl, ih]

theorem findLast_concat (t : Char) (zs : List Char) :
    findLast t (zs ++ [t]) = some zs.length := by
  induction zs with
  | nil => simp [findLast]
  | cons c cs ih => simp [findLast, ih]

theorem bracketSpanGo_skip (p : List Char) {r : List Char}
    (h : ∀ c ∈ p, c ≠ '[' ∧ c ≠ '{') : bracketSpanGo (p ++ r) = bracketSpanGo r := by
  induction p with
  | nil => rfl
  | cons c cs ih =>
    obtain ⟨h1, h2⟩ := h c (by simp)
    simp only [List.cons_append, bracketSpanGo, if_neg h1, if_neg h2]
    exact ih (fun e he => h e (List.mem_cons_of_mem _ he))

theorem bracketSpanGo_array (zs : List Char) {suf : List Char}
    (h : ∀ c ∈ suf, c ≠ ']') :
    bracketSpanGo (('[' :: (zs ++ [']'])) ++ suf) = some ('[' :: (zs ++ [']'])) := by
  have e1 : bracketSpanGo (('[' :: (zs ++ [']'])) ++ suf) =
      (match findLast ']' ((zs ++ [']']) ++ suf) with
       | some i => some ('[' :: ((zs ++ [']']) ++ suf).take (i + 1))
       | none => bracketSpanGo ((zs ++ [']']) ++ suf)) := rfl
  rw [e1, findLast_append_right _ h, findLast_concat]
  show some ('[' :: List.take (zs.length + 1) ((zs ++ [']']) ++ suf)) = some ('[' :: (zs ++ [']']))
  have hlen : zs.length + 1 = (zs ++ [']']).length := by simp
  rw [hlen, List.take_left]

theorem dumpsListTail_ends (l : List Json) : ∃ ws, dumpsListTail l = ws ++ [']'] := by
  induction l with
  | nil => exact ⟨[], rfl⟩
  | cons x xs ih =>
    obtain ⟨ws, hws⟩ := ih
    exact ⟨',' :: ' ' :: (dumpsChars x ++ ws), by simp [dumpsListTail, hws]⟩

theorem dumpsChars_arr_shape (xs : List Json) :
    ∃ zs, dumpsChars (Json.arr xs) = '[' :: (zs ++ [']']) := by
  cases xs with
  | nil => exact ⟨[], rfl⟩
  | cons x xs =>
    obtain ⟨ws, hws⟩ := dumpsListTail_ends xs
    exact ⟨dumpsChars x ++ ws, by simp [dumpsChars, hws]⟩

theorem collectStamp_arr_objs (recs : List Record) (page : Json) :
    collectStamp (Json.arr (recs.map Json.obj)) page =
      recs.map (fun r => insertKV r "source_page" page) := by
  show (recs.map Json.obj).filterMap (stampObj page) = _
  induction recs with
  | nil => rfl
  | cons r recs ih => simp [List.filterMap_cons, stampObj, ih]

/-! ### Pipeline helper lemmas -/

theorem getVal_insertKV_ne (d : Record) (k k' : String) (v : Json) (h : k' ≠ k) :
    getVal (insertKV d k v) k' = getVal d k' := by
  have hkk : ¬k = k' := fun he => h he.symm
  induction d with
  | nil =>
    show (if k = k' then some v else none) = none
    rw [if_neg hkk]
  | cons kv rest ih =>
    obtain ⟨k0, v0⟩ := kv
    by_cases h0 : k0 = k
    · rw [h0]
      rw [show insertKV ((k, v0) :: rest) k v = (k, v) :: rest from by simp [insertKV]]
      show (if k = k' then some v else getVal rest k') =
        (if k = k' then some v0 else getVal rest k')
      rw [if_neg hkk, if_neg hkk]
    · rw [show insertKV ((k0, v0) :: rest) k v = (k0, v0) :: insertKV rest k v from by
          simp [insertKV, h0]]
      show (if k0 = k' then some v0 else getVal (insertKV rest k v) k') =
        (if k0 = k' then some v0 else getVal rest k')
      rw [ih]

theorem pyStrip_bracket (zs : List Char) :
    pyStrip ⟨'[' :: (zs ++ [']'])⟩ = ⟨'[' :: (zs ++ [']'])⟩ := by
  unfold pyStrip
  rw [List.dropWhile_cons_of_neg (by simp [pyIsSpace])]
  rw [show ('[' :: (zs ++ [']'])).reverse = ']' :: (zs.reverse ++ ['[']) from by simp]
  rw [List.dropWhile_cons_of_neg (by simp [pyIsSpace])]
  simp

theorem extractMetricsAux_calls (oracle : Int → String → String) :
    ∀ (chunks : List Chunk) (n : Nat) (acc : List Record),
    (extractMetricsAux oracle chunks n acc).1 ≤ n + chunks.length := by
  intro chunks
  induction chunks with
  | nil => intro n acc; simp [extractMetricsAux]
  | cons c rest ih =>
    intro n acc
    simp only [extractMetricsAux]
    cases hrc : reconcileChunk (oracle c.page_number c.text) (Json.num c.page_number) with
    | ok ms =>
      dsimp only
      have h := ih (n + 1) (acc ++ ms)
      simp only [List.length_cons]
      omega
    | error e =>
      dsimp only
      simp

theorem processParts_calls (fileName : String) (oracle : Int → String → String) :
    ∀ (parts : List (List String)) (offset : Int) (calls : Nat) (acc : List Record),
    (processParts fileName oracle parts offset calls acc).1 ≤ calls + totalPages parts := by
  intro parts
  induction parts with
  | nil => intro offset calls acc; simp [processParts, totalPages]
  | cons part rest ih =>
    intro offset calls acc
    rcases hem : extractMetrics oracle ((List.range part.length).zipWith
        (fun (i : Nat) text => Chunk.mk (offset + (i : Int) + 1) text) part) with ⟨c, res⟩
    have hlen2 : ((List.range part.length).zipWith
        (fun (i : Nat) text => Chunk.mk (offset + (i : Int) + 1) text) part).length = part.length := by
      rw [List.length_zipWith, List.length_range]
      exact Nat.min_self _
    have hcb : c ≤ part.length := by
      have h1 := extractMetricsAux_calls oracle ((List.range part.length).zipWith
        (fun (i : Nat) text => Chunk.mk (offset + (i : Int) + 1) text) part) 0 []
      rw [show extractMetricsAux oracle ((List.range part.length).zipWith
        (fun (i : Nat) text => Chunk.mk (offset + (i : Int) + 1) text) part) 0 [] = (c, res) from hem,
        hlen2] at h1
      simpa using h1
    have htp : totalPages (part :: rest) = part.length + totalPages rest := by
      simp [totalPages]
    simp only [processParts]
    rw [hem]
    dsimp only
    cases res with
    | ok ms =>
      dsimp only
      cases hna : normalizeAll fileName ms with
      | ok ms' =>
        dsimp only
        have hrec := ih (offset + part.length) (calls + c) (acc ++ ms')
        omega
      | error e =>
        dsimp only
        have hrec := ih offset (calls + c) acc
        omega
    | error e =>
      dsimp only
      have hrec := ih offset (calls + c) acc
      omega

theorem lookupStore_cons_self (stem : String) (rows : ProjTable) (store : Store) :
    lookupStore ((stem, rows) :: store) stem = some rows := by
  simp [lookupStore]

theorem runApp_cached (apiKey : String) (store : Store) (fileName : String)
    (parts : List (List String)) (oracle : Int → String → String) (t : ProjTable)
    (hk : apiKey ≠ "") (hl : lookupStore store (pathStem fileName) = some t) :
    runApp apiKey store fileName parts oracle = ⟨0, store, .cachedHit t⟩ := by
  unfold runApp
  rw [if_neg hk, hl]

theorem runApp_miss (apiKey : String) (store : Store) (fileName : String)
    (parts : List (List String)) (oracle : Int → String → String)
    (hk : apiKey ≠ "") (hl : lookupStore store (pathStem fileName) = none) :
    runApp apiKey store fileName parts oracle =
      (match processParts fileName oracle parts 0 0 [] with
       | (calls, allMetrics) =>
         if allMetrics.isEmpty then ⟨calls, store, .noMetrics⟩
         else
           match projectColumns allMetrics columnsOrder with
           | .ok rows => ⟨calls, (pathStem fileName, rows) :: store, .saved rows⟩
           | .error e => ⟨calls, store, .fatal e⟩) := by
  unfold runApp
  rw [if_neg hk, hl]

theorem runApp_saved_store (apiKey : String) (store : Store) (fileName : String)
    (parts : List (List String)) (oracle : Int → String → String) (rows : ProjTable)
    (hk : apiKey ≠ "")
    (hs : (runApp apiKey store fileName parts oracle).outcome = .saved rows) :
    (runApp apiKey store fileName parts oracle).store = (pathStem fileName, rows) :: store := by
  cases hl : lookupStore store (pathStem fileName) with
  | some t =>
    rw [runApp_cached apiKey store fileName parts oracle t hk hl] at hs ⊢
    cases hs
  | none =>
    rw [runApp_miss apiKey store fileName parts oracle hk hl] at hs ⊢
    rcases hem : processParts fileName oracle parts 0 0 [] with ⟨calls, ms⟩
    dsimp only at hs ⊢
    rw [hem] at hs
    dsimp only at hs
    by_cases hmt : ms.isEmpty
    · rw [if_pos hmt] at hs
      cases hs
    · rw [if_neg hmt] at hs ⊢
      cases hproj : projectColumns ms columnsOrder with
      | ok rows' =>
        rw [hproj] at hs
        dsimp only at hs ⊢
        cases hs
        rfl
      | error e =>
        rw [hproj] at hs
        dsimp only at hs
        cases hs

/-! ### Comparison-page helper lemmas -/

theorem compareRun_cached (apiKey : String) (cache : List String)
    (readCsv : String → Option CsvTable) (selected : List String)
    (category response : String) (h : cacheKey selected category ∈ cache) :
    compareRun apiKey cache readCsv selected category response =
      ⟨0, false, cache, .loadedFromCache⟩ := by
  unfold compareRun
  rw [if_pos h]

theorem compareRun_wrote_cacheAfter (apiKey : String) (cache : List String)
    (readCsv : String → Option CsvTable) (selected : List String)
    (category response : String)
    (hw : (compareRun apiKey cache readCsv selected category response).wrote = true) :
    (compareRun apiKey cache readCsv selected category response).cacheAfter =
      cacheKey selected category :: cache := by
  by_cases h1 : cacheKey selected category ∈ cache
  · rw [compareRun_cached apiKey cache readCsv selected category response h1] at hw
    cases hw
  · by_cases h2 : apiKey = ""
    · rw [show compareRun apiKey cache readCsv selected category response =
          ⟨0, false, cache, .noApiKey⟩ from by unfold compareRun; rw [if_neg h1, if_pos h2]] at hw
      cases hw
    · by_cases h3 : (loadFiltered readCsv selected category).length < 2
      · rw [show compareRun apiKey cache readCsv selected category response =
            ⟨0, false, cache, .insufficient⟩ from by
            unfold compareRun; rw [if_neg h1, if_neg h2, if_pos h3]] at hw
        cases hw
      · cases h4 : Json.loads (extractJson response) with
        | some g =>
          rw [show compareRun apiKey cache readCsv selected category response =
              ⟨1, true, cacheKey selected category :: cache, .analyzed g⟩ from by
              unfold compareRun; rw [if_neg h1, if_neg h2, if_neg h3, h4]]
        | none =>
          rw [show compareRun apiKey cache readCsv selected category response =
              ⟨1, false, cache, .badJson⟩ from by
              unfold compareRun; rw [if_neg h1, if_neg h2, if_neg h3, h4]] at hw
          cases hw

/-! ## The claims -/

/-- C1: the reconciliation step is claimed never to raise, degrading to a
synthetic "unparsed" record whenever neither the whole text nor an
embedded span parses.  The code's second `json.loads` (on the regex span)
is not guarded by a `try`: on `"a [b] c"` the span `"[b]"` is found but
does not parse, and `json.JSONDecodeError` propagates out of
`extract_metrics` — only when *no* span is found does the synthetic
record appear. -/
theorem c1_reconcile_raises_on_unparsable_span :
    reconcileChunk "a [b] c" (Json.num 7) = .error .jsonDecodeError ∧
    reconcileChunk "garbage" (Json.num 7) =
      .ok [[("raw_output", Json.str "garbage"), ("source_page", Json.num 7)]] :=
  ⟨rfl, rfl⟩

/-- C3 counterexample: `'environmental'` is *not* stored back capitalized —
the capitalized form is only used for the membership check, and the
record keeps its original lowercase value. -/
theorem c3_counterexample :
    normalizeRecord "r.pdf" [("category", Json.str "environmental")] =
      .ok [("category", Json.str "environmental"),
           ("source", Json.str "r.pdf - page unknown")] ∧
    "environmental" ≠ "Environmental" :=
  ⟨rfl, by decide⟩

/-- C3 (amended): a category whose `capitalize` lands in the enumeration is
left exactly as supplied (not rewritten); any other string value — and a
missing category, which defaults to `""` — is coerced to
`"Environmental"`; a present non-string category (e.g. `None`) raises
`AttributeError`.  In every non-raising case the `source` citation is
stamped first. -/
theorem c3_category_normalization (fileName : String) (m : Record) :
    (∀ s, getD m "category" (Json.str "") = Json.str s → pyCapitalize s ∈ categoryEnum →
      normalizeRecord fileName m = .ok (insertKV m "source"
        (Json.str (fileName ++ " - page " ++ pyStr (getD m "source_page" (Json.str "unknown")))))) ∧
    (∀ s, getD m "category" (Json.str "") = Json.str s → pyCapitalize s ∉ categoryEnum →
      normalizeRecord fileName m = .ok (insertKV (insertKV m "source"
        (Json.str (fileName ++ " - page " ++ pyStr (getD m "source_page" (Json.str "unknown")))))
        "category" (Json.str "Environmental"))) ∧
    (∀ v, getVal m "category" = some v → (∀ s, v ≠ Json.str s) →
      normalizeRecord fileName m = .error .attributeError) := by
  have hcat : getD (insertKV m "source"
      (Json.str (fileName ++ " - page " ++ pyStr (getD m "source_page" (Json.str "unknown")))))
      "category" (Json.str "") = getD m "category" (Json.str "") := by
    unfold getD
    rw [getVal_insertKV_ne m "source" "category" _ (by decide)]
  refine ⟨?_, ?_, ?_⟩
  · intro s hs hmem
    simp only [normalizeRecord]
    rw [hcat, hs]
    dsimp only
    rw [if_pos hmem]
  · intro s hs hmem
    simp only [normalizeRecord]
    rw [hcat, hs]
    dsimp only
    rw [if_neg hmem]
  · intro v hv hns
    simp only [normalizeRecord]
    rw [hcat, show getD m "category" (Json.str "") = v from by unfold getD; rw [hv]; rfl]
    cases v with
    | str s => exact absurd rfl (hns s)
    | null => rfl
    | bool b => rfl
    | num i => rfl
    | arr xs => rfl
    | obj kvs => rfl

/-- C3 witness: a recognized category in non-canonical case passes through
unchanged, with the source citation stamped. -/
theorem c3_witness : normalizeRecord "f.pdf"
    [("category", Json.str "GOVERNANCE"), ("source_page", Json.num 3)] =
    .ok [("category", Json.str "GOVERNANCE"), ("source_page", Json.num 3),
         ("source", Json.str "f.pdf - page 3")] := by
  have h := (c3_category_normalization "f.pdf"
    [("category", Json.str "GOVERNANCE"), ("source_page", Json.num 3)]).1 "GOVERNANCE" rfl
    (by decide)
  exact h.trans rfl

/-- C4 counterexample: two readable tables with the expected columns, of
which only one has a row in the requested category — the guard counts
loaded tables, not matching rows, so the oracle *is* invoked (and the
result is cached), contradicting the claim that this must fail as
insufficient input. -/
theorem c4_counterexample :
    (compareRun "k" [] (fun f =>
        if f = "a.csv" then
          some (expectedCols, [[("category", Json.str "Environmental"), ("metric_name", Json.str "x")]])
        else if f = "b.csv" then
          some (expectedCols, [[("category", Json.str "Social"), ("metric_name", Json.str "y")]])
        else none)
      ["a.csv", "b.csv"] "Environmental" "[]").calls = 1 ∧
    (compareRun "k" [] (fun f =>
        if f = "a.csv" then
          some (expectedCols, [[("category", Json.str "Environmental"), ("metric_name", Json.str "x")]])
        else if f = "b.csv" then
          some (expectedCols, [[("category", Json.str "Social"), ("metric_name", Json.str "y")]])
        else none)
      ["a.csv", "b.csv"] "Environmental" "[]").wrote = true :=
  ⟨rfl, rfl⟩

/-- C4 (amended): the comparison fails as insufficient input, with zero
oracle invocations and no cache write, exactly when fewer than two tables
load successfully with the expected columns — the per-category row count
plays no part in the guard. -/
theorem c4_insufficient_guard (apiKey : String) (cache : List String)
    (readCsv : String → Option CsvTable) (selected : List String)
    (category response : String)
    (hk : apiKey ≠ "") (hc : cacheKey selected category ∉ cache)
    (hlen : (loadFiltered readCsv selected category).length < 2) :
    compareRun apiKey cache readCsv selected category response =
      ⟨0, false, cache, .insufficient⟩ := by
  unfold compareRun
  rw [if_neg hc, if_neg hk, if_pos hlen]

/-- C4 witness: one valid selected table is rejected as insufficient. -/
theorem c4_witness : compareRun "k" []
    (fun f => if f = "a.csv" then some (expectedCols, []) else none)
    ["a.csv"] "Social" "resp" = ⟨0, false, [], .insufficient⟩ :=
  c4_insufficient_guard "k" []
    (fun f => if f = "a.csv" then some (expectedCols, []) else none)
    ["a.csv"] "Social" "resp" (by decide) (by decide) (by decide)

/-- C9: a missing oracle credential fails fast — constructing the client
with no key and an empty or absent environment raises `ValueError`, and a
run without an entered key stops before any oracle invocation. -/
theorem c9_credential_guard (store : Store) (fileName : String)
    (parts : List (List String)) (oracle : Int → String → String) :
    MetricsExtractor.init none none = .error .valueError ∧
    MetricsExtractor.init none (some "") = .error .valueError ∧
    MetricsExtractor.init (some "") none = .error .valueError ∧
    runApp "" store fileName parts oracle = ⟨0, store, .noKey⟩ :=
  ⟨rfl, rfl, rfl, rfl⟩

/-- C10: when the (stripped) oracle text parses as a JSON array, exactly
its object elements become records, each stamped with the chunk's source
page; non-object elements are dropped silently, with no synthetic
"unparsed" entry. -/
theorem c10_array_keeps_objects_only (raw : String) (page : Json) (xs : List Json)
    (h : Json.loads (pyStrip raw) = some (Json.arr xs)) :
    reconcileChunk raw page = .ok (xs.filterMap (stampObj page)) := by
  simp only [reconcileChunk]
  rw [h]
  rfl

/-- C10 witness: a four-element array with one object yields exactly one
stamped record. -/
theorem c10_witness : reconcileChunk "[1, \x7b\"a\": 2\x7d, \"x\", null]" (Json.num 4) =
    .ok [[("a", Json.num 2), ("source_page", Json.num 4)]] := by
  have h := c10_array_keeps_objects_only "[1, \x7b\"a\": 2\x7d, \"x\", null]" (Json.num 4)
    [Json.num 1, Json.obj [("a", Json.num 2)], Json.str "x", Json.null] rfl
  exact h.trans rfl

/-- C2 counterexample: a first run whose oracle answers `"[]"` extracts no
records, persists nothing, and so a second run on the same identifier
re-invokes the oracle — two invocations in total for a one-chunk
document, contradicting "at most once per chunk in total". -/
theorem c2_counterexample :
    (runApp "k" [] "r.pdf" [["t"]] (fun _ _ => "[]")).calls = 1 ∧
    (runApp "k" (runApp "k" [] "r.pdf" [["t"]] (fun _ _ => "[]")).store "r.pdf" [["t"]]
      (fun _ _ => "[]")).calls = 1 ∧
    totalPages [["t"]] = 1 :=
  ⟨rfl, rfl, rfl⟩

/-- C2 (amended): a run finding a persisted table performs zero oracle
invocations and serves that table; any run performs at most one oracle
invocation per page; and whenever the first run actually *saves* a table,
a second run on the same identifier performs zero invocations. -/
theorem c2_cache_short_circuit (apiKey apiKey2 : String) (store : Store) (fileName : String)
    (parts parts2 : List (List String)) (oracle oracle2 : Int → String → String)
    (hk : apiKey ≠ "") (hk2 : apiKey2 ≠ "") :
    (∀ t, lookupStore store (pathStem fileName) = some t →
      runApp apiKey store fileName parts oracle = ⟨0, store, .cachedHit t⟩) ∧
    (runApp apiKey store fileName parts oracle).calls ≤ totalPages parts ∧
    (∀ rows, (runApp apiKey store fileName parts oracle).outcome = .saved rows →
      (runApp apiKey2 (runApp apiKey store fileName parts oracle).store fileName
        parts2 oracle2).calls = 0) := by
  refine ⟨fun t ht => runApp_cached _ _ _ _ _ t hk ht, ?_, ?_⟩
  · cases hl : lookupStore store (pathStem fileName) with
    | some t =>
      rw [runApp_cached _ _ _ _ _ t hk hl]
      exact Nat.zero_le _
    | none =>
      rw [runApp_miss _ _ _ _ _ hk hl]
      rcases hem : processParts fileName oracle parts 0 0 [] with ⟨calls, ms⟩
      have hcalls : calls ≤ totalPages parts := by
        have h := processParts_calls fileName oracle parts 0 0 []
        rw [hem] at h
        simpa using h
      dsimp only
      by_cases hmt : ms.isEmpty
      · rw [if_pos hmt]
        exact hcalls
      · rw [if_neg hmt]
        cases hproj : projectColumns ms columnsOrder with
        | ok rows =>
          dsimp only
          exact hcalls
        | error e =>
          dsimp only
          exact hcalls
  · intro rows hsv
    rw [runApp_saved_store apiKey store fileName parts oracle rows hk hsv,
        runApp_cached apiKey2 ((pathStem fileName, rows) :: store) fileName parts2 oracle2 rows hk2
          (lookupStore_cons_self _ _ _)]

/-- C2 witness: with a table already persisted for the document stem, the
run is served from the store with zero oracle invocations. -/
theorem c2_witness : runApp "k" [("r", [[some (Json.str "x")]])] "r.pdf" [["t"]]
    (fun _ _ => "[]") = ⟨0, [("r", [[some (Json.str "x")]])], .cachedHit [[some (Json.str "x")]]⟩ :=
  (c2_cache_short_circuit "k" "k" [("r", [[some (Json.str "x")]])] "r.pdf" [["t"]] [["t"]]
    (fun _ _ => "[]") (fun _ _ => "[]") (by decide) (by decide)).1 [[some (Json.str "x")]] rfl

/-- C5 counterexample: when every record lacks `metric_name` (and the other
metric columns) — as happens when a part produced only the synthetic
"unparsed" record — the pandas projection `df[columns_order]` raises
`KeyError` instead of producing empty values, and the pipeline persists
nothing, ending in the fatal error. -/
theorem c5_counterexample :
    projectColumns [[("raw_output", Json.str "gibberish"), ("source_page", Json.num 1),
        ("source", Json.str "r.pdf - page 1"), ("category", Json.str "Environmental")]]
      columnsOrder = .error .keyError ∧
    (runApp "k" [] "r.pdf" [["x"]] (fun _ _ => "gibberish")).outcome = .fatal .keyError ∧
    (runApp "k" [] "r.pdf" [["x"]] (fun _ _ => "gibberish")).store = [] :=
  ⟨rfl, rfl, rfl⟩

/-- C5 (amended): the persisted table is the projection of the aggregated
records to exactly `[metric_name, value, unit, year, category, source]`
in that order, with an empty cell where an individual record lacks a
column — provided each of those columns appears in at least one record;
a column missing from every record raises `KeyError` instead. -/
theorem c5_persisted_projection (apiKey : String) (store : Store) (fileName : String)
    (parts : List (List String)) (oracle : Int → String → String)
    (calls : Nat) (ms : List Record)
    (hk : apiKey ≠ "") (hmiss : lookupStore store (pathStem fileName) = none)
    (hpp : processParts fileName oracle parts 0 0 [] = (calls, ms))
    (hne : ms.isEmpty = false)
    (hcols : columnsOrder.all (fun c => c ∈ keysUnion ms) = true) :
    runApp apiKey store fileName parts oracle =
      ⟨calls,
       (pathStem fileName, ms.map (fun r => columnsOrder.map (fun c => getVal r c))) :: store,
       .saved (ms.map (fun r => columnsOrder.map (fun c => getVal r c)))⟩ := by
  rw [runApp_miss _ _ _ _ _ hk hmiss, hpp]
  dsimp only
  rw [if_neg (by simp [hne])]
  have hproj : projectColumns ms columnsOrder =
      .ok (ms.map (fun r => columnsOrder.map (fun c => getVal r c))) := by
    unfold projectColumns
    rw [if_pos hcols]
  rw [hproj]

set_option maxRecDepth 8000 in
/-- C5 witness: of two extracted records, the second lacks `unit`; the
persisted rows have exactly the six fixed columns, with an empty cell for
the missing `unit`. -/
theorem c5_witness : runApp "k" [] "r.pdf" [["p"]] (fun _ _ =>
      "[\x7b\"metric_name\": \"A\", \"value\": 1, \"unit\": \"t\", \"year\": 2023, \"category\": \"Environmental\"\x7d, \x7b\"metric_name\": \"B\", \"value\": 2, \"year\": 2023, \"category\": \"Social\"\x7d]") =
    ⟨1,
     [("r",
       [[some (Json.str "A"), some (Json.num 1), some (Json.str "t"), some (Json.num 2023),
         some (Json.str "Environmental"), some (Json.str "r.pdf - page 1")],
        [some (Json.str "B"), some (Json.num 2), none, some (Json.num 2023),
         some (Json.str "Social"), some (Json.str "r.pdf - page 1")]])],
     .saved
       [[some (Json.str "A"), some (Json.num 1), some (Json.str "t"), some (Json.num 2023),
         some (Json.str "Environmental"), some (Json.str "r.pdf - page 1")],
        [some (Json.str "B"), some (Json.num 2), none, some (Json.num 2023),
         some (Json.str "Social"), some (Json.str "r.pdf - page 1")]]⟩ := by
  have h := c5_persisted_projection "k" [] "r.pdf" [["p"]] (fun _ _ =>
      "[\x7b\"metric_name\": \"A\", \"value\": 1, \"unit\": \"t\", \"year\": 2023, \"category\": \"Environmental\"\x7d, \x7b\"metric_name\": \"B\", \"value\": 2, \"year\": 2023, \"category\": \"Social\"\x7d]")
    1
    [[("metric_name", Json.str "A"), ("value", Json.num 1), ("unit", Json.str "t"),
      ("year", Json.num 2023), ("category", Json.str "Environmental"),
      ("source_page", Json.num 1), ("source", Json.str "r.pdf - page 1")],
     [("metric_name", Json.str "B"), ("value", Json.num 2), ("year", Json.num 2023),
      ("category", Json.str "Social"), ("source_page", Json.num 1),
      ("source", Json.str "r.pdf - page 1")]]
    (by decide) rfl rfl rfl rfl
  exact h.trans rfl

/-- C6 counterexample: reconciling the serialization of `[{"a": 1}]` does
not return the original record — every recovered record additionally
carries the `source_page` stamp, so the key sets differ. -/
theorem c6_counterexample :
    reconcileChunk (Json.dumps (Json.arr [Json.obj [("a", Json.num 1)]])) (Json.num 2) =
      .ok [[("a", Json.num 1), ("source_page", Json.num 2)]] ∧
    [[("a", Json.num 1), ("source_page", Json.num 2)]].map (List.map Prod.fst) ≠
      [[("a", Json.num 1)]].map (List.map Prod.fst) :=
  ⟨rfl, by decide⟩

/-- C6 (amended): reconciling the JSON serialization of a list of plain
objects recovers, in order, each original record extended (or overwritten)
with a `source_page` entry for the supplied page — structural equality
holds on every original key, but not on the whole record. -/
theorem c6_roundtrip_with_stamp (recs : List Record) (page : Json)
    (hp : Json.plain (Json.arr (recs.map Json.obj)) = true) :
    reconcileChunk (Json.dumps (Json.arr (recs.map Json.obj))) page =
      .ok (recs.map (fun r => insertKV r "source_page" page)) := by
  obtain ⟨zs, hzs⟩ := dumpsChars_arr_shape (recs.map Json.obj)
  have hd : Json.dumps (Json.arr (recs.map Json.obj)) = ⟨'[' :: (zs ++ [']'])⟩ := by
    show (⟨dumpsChars (Json.arr (recs.map Json.obj))⟩ : String) = _
    rw [hzs]
  have hstrip : pyStrip (Json.dumps (Json.arr (recs.map Json.obj))) =
      Json.dumps (Json.arr (recs.map Json.obj)) := by
    rw [hd]
    exact pyStrip_bracket zs
  simp only [reconcileChunk]
  rw [hstrip, loads_dumps _ hp]
  dsimp only
  rw [collectStamp_arr_objs]

/-- C6 witness: two plain records round-trip, each gaining the stamp. -/
theorem c6_witness :
    reconcileChunk (Json.dumps (Json.arr [Json.obj [("a", Json.num 1)],
        Json.obj [("b", Json.str "x")]])) (Json.num 5) =
      .ok [[("a", Json.num 1), ("source_page", Json.num 5)],
           [("b", Json.str "x"), ("source_page", Json.num 5)]] := by
  have h := c6_roundtrip_with_stamp [[("a", Json.num 1)], [("b", Json.str "x")]]
    (Json.num 5) (by decide)
  exact h.trans rfl

/-- C7 counterexample: reconciliation has no fenced-block search — its
greedy bracket-span regex runs to the *last* bracket in the text, so a
bracket appearing in the suffix prose makes the span unparsable and
reconciliation raises, where the claimed fenced-first extraction would
have succeeded (as `extract_json` of the comparison page, shown beside
it, in fact does). -/
theorem c7_counterexample :
    reconcileChunk "x ```json\n[1]\n``` see [ref]" (Json.num 1) = .error .jsonDecodeError ∧
    extractJson "x ```json\n[1]\n``` see [ref]" = "[1]" :=
  ⟨rfl, rfl⟩

/-- C7 (amended): for `prefix ```json\n[…]\n``` suffix` the reconciliation
recovers exactly the fenced array only by accident of the greedy bracket
span: it does so when the prefix contains no opening bracket and the
suffix no `]`, and the text neither strips at the ends nor parses as
JSON directly.  There is no fenced-block search in reconciliation. -/
theorem c7_fenced_via_greedy_span (pre suf : String) (xs : List Json) (page : Json)
    (hpre : ∀ c ∈ pre.data, c ≠ '[' ∧ c ≠ '{')
    (hsuf : ∀ c ∈ suf.data, c ≠ ']')
    (hplain : Json.plain (Json.arr xs) = true)
    (hstrip : pyStrip (pre ++ "```json\n" ++ Json.dumps (Json.arr xs) ++ "\n```" ++ suf) =
      pre ++ "```json\n" ++ Json.dumps (Json.arr xs) ++ "\n```" ++ suf)
    (hfail : Json.loads (pre ++ "```json\n" ++ Json.dumps (Json.arr xs) ++ "\n```" ++ suf) = none) :
    reconcileChunk (pre ++ "```json\n" ++ Json.dumps (Json.arr xs) ++ "\n```" ++ suf) page =
      .ok (xs.filterMap (stampObj page)) := by
  obtain ⟨zs, hzs⟩ := dumpsChars_arr_shape xs
  have hdata : (pre ++ "```json\n" ++ Json.dumps (Json.arr xs) ++ "\n```" ++ suf).data =
      (pre.data ++ "```json\n".data) ++
        (('[' :: (zs ++ [']'])) ++ ("\n```".data ++ suf.data)) := by
    show (((pre.data ++ "```json\n".data) ++ dumpsChars (Json.arr xs)) ++ "\n```".data) ++ suf.data
      = _
    rw [hzs]
    simp [List.append_assoc]
  have hspan : bracketSpan (pre ++ "```json\n" ++ Json.dumps (Json.arr xs) ++ "\n```" ++ suf) =
      some ⟨'[' :: (zs ++ [']'])⟩ := by
    unfold bracketSpan
    rw [hdata, bracketSpanGo_skip _ ?hp, bracketSpanGo_array _ ?hs]
    · rfl
    case hp =>
      have hfence : ∀ c ∈ "```json\n".data, c ≠ '[' ∧ c ≠ '\x7b' := by decide
      intro c hc
      rcases List.mem_append.mp hc with h' | h'
      · exact hpre c h'
      · exact hfence c h'
    case hs =>
      have hclose : ∀ c ∈ "\n```".data, c ≠ ']' := by decide
      intro c hc
      rcases List.mem_append.mp hc with h' | h'
      · exact hclose c h'
      · exact hsuf c h'
  have hsloads : Json.loads ⟨'[' :: (zs ++ [']'])⟩ = some (Json.arr xs) := by
    rw [show (⟨'[' :: (zs ++ [']'])⟩ : String) = Json.dumps (Json.arr xs) from by
      show _ = (⟨dumpsChars (Json.arr xs)⟩ : String); rw [hzs]]
    exact loads_dumps _ hplain
  simp only [reconcileChunk]
  rw [hstrip, hfail]
  dsimp only
  rw [hspan]
  dsimp only
  rw [hsloads]
  rfl

/-- C7 witness: bracket-free prose around a fenced plain array is
reconciled to exactly the fenced array's records. -/
theorem c7_witness :
    reconcileChunk ("Result: " ++ "```json\n" ++
        Json.dumps (Json.arr [Json.obj [("a", Json.num 1)]]) ++ "\n```" ++ " done.")
      (Json.num 3) = .ok [[("a", Json.num 1), ("source_page", Json.num 3)]] := by
  have h := c7_fenced_via_greedy_span "Result: " " done." [Json.obj [("a", Json.num 1)]]
    (Json.num 3) (by decide) (by decide) (by decide) rfl rfl
  exact h.trans rfl

/-- C8 counterexample: the comparison cache key concatenates the document
stems in the order supplied — the same two documents selected in the
opposite order produce a different key, and a run primed with the first
key still invokes the oracle once for the reversed selection. -/
theorem c8_counterexample :
    cacheKey ["a.csv", "b.csv"] "Environmental" ≠ cacheKey ["b.csv", "a.csv"] "Environmental" ∧
    (compareRun "k" [cacheKey ["a.csv", "b.csv"] "Environmental"]
      (fun f => if f = "a.csv" then some (expectedCols, [])
                else if f = "b.csv" then some (expectedCols, []) else none)
      ["b.csv", "a.csv"] "Environmental" "[]").calls = 1 :=
  ⟨by decide, rfl⟩

/-- C8 (amended): the cache key is determined by the category and the
*sequence* of selected documents; a request repeating the same category
and the same documents in the same order short-circuits to the cached
artifact with zero oracle invocations, but order is not normalized. -/
theorem c8_same_order_short_circuit (apiKey apiKey2 : String) (cache : List String)
    (readCsv readCsv2 : String → Option CsvTable) (selected : List String)
    (category response response2 : String)
    (hw : (compareRun apiKey cache readCsv selected category response).wrote = true) :
    compareRun apiKey2 (compareRun apiKey cache readCsv selected category response).cacheAfter
      readCsv2 selected category response2 =
      ⟨0, false, (compareRun apiKey cache readCsv selected category response).cacheAfter,
       .loadedFromCache⟩ := by
  rw [compareRun_wrote_cacheAfter apiKey cache readCsv selected category response hw]
  exact compareRun_cached _ _ _ _ _ _ (List.mem_cons_self _ _)

/-- C8 witness: a successful comparison for `a.csv, b.csv` is served from
cache when repeated with the same ordered selection. -/
theorem c8_witness :
    compareRun "k" (compareRun "k" []
      (fun f => if f = "a.csv" then some (expectedCols, [])
                else if f = "b.csv" then some (expectedCols, []) else none)
      ["a.csv", "b.csv"] "Environmental" "[]").cacheAfter
      (fun f => if f = "a.csv" then some (expectedCols, [])
                else if f = "b.csv" then some (expectedCols, []) else none)
      ["a.csv", "b.csv"] "Environmental" "[]" =
    ⟨0, false, (compareRun "k" []
      (fun f => if f = "a.csv" then some (expectedCols, [])
                else if f = "b.csv" then some (expectedCols, []) else none)
      ["a.csv", "b.csv"] "Environmental" "[]").cacheAfter, .loadedFromCache⟩ :=
  c8_same_order_short_circuit "k" "k" []
    (fun f => if f = "a.csv" then some (expectedCols, [])
              else if f = "b.csv" then some (expectedCols, []) else none)
    (fun f => if f = "a.csv" then some (expectedCols, [])
              else if f = "b.csv" then some (expectedCols, []) else none)
    ["a.csv", "b.csv"] "Environmental" "[]" "[]" rfl
